import Mathlib

/-!
Verification of `src/generate/vsop/vsop.c` (VSOP87 planetary model loader,
evaluator, truncation engine and compact-format serializer).

Modelling conventions:

* All C `double` arithmetic is embedded as exact arithmetic over `ℚ`.
  The transcendental functions `cos` and `sin` of `math.h` are abstract
  parameters `cos sin : ℚ → ℚ`; every theorem about the evaluators is
  proved for an arbitrary choice of these functions.
* C arrays with an active-count field become Lean lists together with the
  corresponding count field; `nterms_total` is the length of the term list
  (the C code allocates `term` with exactly `nterms_total` entries) and
  `nseries_total` is the length of the series list.  Slots read beyond the
  end of a list are `default` values, matching the zero-initialised memory
  (`memset`/`calloc`) of the C model structure.
* Functions that write results through out-parameters and return an `int`
  error code become functions returning the value paired with the error
  code (`Nat × _`), or `Option` when the C caller receives no output at
  all on failure.
* The header `vsop.h` is not part of the sources; the enumerations and
  capacity constants declared there are modelled from the specification
  (each such definition carries a `Modelled from the spec:` comment).
* The two text file formats are embedded at line granularity: a file is a
  list of structured records, one per text line, carrying exactly the
  fields that the C code extracts from (or prints into) that line.
-/

/-- Modelled from the spec: `vsop_version_t` is declared in the missing
header `vsop.h`.  The spec lists the six coordinate schemes (heliocentric
rectangular J2000 / of-date, heliocentric spherical J2000 / of-date,
elliptic elements J2000, barycentric rectangular J2000) plus an
invalid/unset sentinel. -/
inductive vsop_version_t where
  | VSOP_ELLIPTIC_J2000
  | VSOP_HELIO_RECT_J2000
  | VSOP_HELIO_SPHER_J2000
  | VSOP_HELIO_RECT_DATE
  | VSOP_HELIO_SPHER_DATE
  | VSOP_BARY_RECT_J2000
  | VSOP_INVALID_VERSION
deriving DecidableEq

/-- Modelled from the spec: `vsop_body_t` is declared in the missing header
`vsop.h`.  The spec lists the ten bodies plus an invalid/unset sentinel. -/
inductive vsop_body_t where
  | VSOP_MERCURY
  | VSOP_VENUS
  | VSOP_EARTH
  | VSOP_EMB
  | VSOP_MARS
  | VSOP_JUPITER
  | VSOP_SATURN
  | VSOP_URANUS
  | VSOP_NEPTUNE
  | VSOP_SUN
  | VSOP_INVALID_BODY
deriving DecidableEq

/-- Modelled from the spec: capacity constant from the missing header
`vsop.h`.  The spec fixes the minimum coordinate count at 3. -/
def VSOP_MIN_COORDS : Nat := 3

/-- Modelled from the spec: capacity constant from the missing header
`vsop.h`.  The spec requires 6 coordinates for the elliptic version and 3
for all others, so the fixed maximum capacity is 6. -/
def VSOP_MAX_COORDS : Nat := 6

/-- Modelled from the spec: capacity constant from the missing header
`vsop.h`.  The spec fixes no numeric series capacity, only that one
exists; 16 accommodates every power digit the standard format can express
(a single character `0`..`9`, hence at most 10 series per formula). -/
def VSOP_MAX_SERIES : Nat := 16

/-- One cosine term `amplitude * cos(phase + t * frequency)`
(struct `vsop_term_t`). -/
structure vsop_term_t where
  amplitude : ℚ
  phase : ℚ
  frequency : ℚ
deriving DecidableEq

instance : Inhabited vsop_term_t := ⟨⟨0, 0, 0⟩⟩

/-- One power-of-`t` series (struct `vsop_series_t`): `term` holds the
`nterms_total` loaded terms, of which the first `nterms_calc` are active. -/
structure vsop_series_t where
  term : List vsop_term_t
  nterms_calc : Nat
deriving DecidableEq

instance : Inhabited vsop_series_t := ⟨⟨[], 0⟩⟩

/-- Total number of loaded terms of a series (field `nterms_total`; the C
code allocates the `term` array with exactly this many entries). -/
def vsop_series_t.nterms_total (s : vsop_series_t) : Nat := s.term.length

/-- One coordinate formula (struct `vsop_formula_t`): `series` holds the
`nseries_total` loaded series, indexed by power of `t`, of which the first
`nseries_calc` are active. -/
structure vsop_formula_t where
  series : List vsop_series_t
  nseries_calc : Nat
deriving DecidableEq

instance : Inhabited vsop_formula_t := ⟨⟨[], 0⟩⟩

/-- Total number of loaded series of a formula (field `nseries_total`). -/
def vsop_formula_t.nseries_total (f : vsop_formula_t) : Nat := f.series.length

/-- A VSOP87 model (struct `vsop_model_t`): version tag, body tag and the
`ncoords` coordinate formulas. -/
structure vsop_model_t where
  version : vsop_version_t
  body : vsop_body_t
  formula : List vsop_formula_t
deriving DecidableEq

/-- Number of coordinates of the model (field `ncoords`). -/
def vsop_model_t.ncoords (m : vsop_model_t) : Nat := m.formula.length

/-- The explicit null model state established by `VsopInit`: invalid
version and body sentinels, zero coordinate count, no term storage. -/
def VsopInit : vsop_model_t :=
  ⟨.VSOP_INVALID_VERSION, .VSOP_INVALID_BODY, []⟩

/-- Releasing a model (`VsopFreeModel`) resets it to the null state; in the
functional embedding the freed storage simply disappears. -/
def VsopFreeModel (_ : vsop_model_t) : vsop_model_t := VsopInit

/-- Days per millennium (`DAYS_PER_MILLENNIUM = 365250.0`). -/
def DAYS_PER_MILLENNIUM : ℚ := 365250

/-- Time conversion (`Millennia`): days since J2000 to millennia. -/
def Millennia (tt : ℚ) : ℚ := tt / DAYS_PER_MILLENNIUM

section Evaluators

variable (cos sin : ℚ → ℚ)

/-- Inner loop of `VsopCoords`: sum of `amplitude * cos(phase + t*frequency)`
over the first `nterms_calc` terms of a series. -/
def SeriesCosSum (t : ℚ) (series : vsop_series_t) : ℚ :=
  ((series.term.take series.nterms_calc).map
    (fun tm => tm.amplitude * cos (tm.phase + t * tm.frequency))).sum

/-- Middle loop of `VsopCoords` over the active series of one formula,
carrying the running power `tpower` of `t` (the C loop accumulates
`coords[k] += tpower * sum; tpower *= t`). -/
def VsopCoordsFormula (t : ℚ) : List vsop_series_t → ℚ → ℚ
  | [], _ => 0
  | series :: rest, tpower =>
      tpower * SeriesCosSum cos t series + VsopCoordsFormula t rest (tpower * t)

/-- Position evaluator `VsopCoords`: one value per coordinate formula,
iterating terms innermost, then series, then coordinates. -/
def VsopCoords (model : vsop_model_t) (t : ℚ) : List ℚ :=
  model.formula.map
    (fun formula => VsopCoordsFormula cos t (formula.series.take formula.nseries_calc) 1)

/-- Inner sine sum of `VsopDeriv`: sum of
`amplitude * frequency * sin(phase + t*frequency)` over the active terms. -/
def SeriesSinSum (t : ℚ) (series : vsop_series_t) : ℚ :=
  ((series.term.take series.nterms_calc).map
    (fun tm => tm.amplitude * tm.frequency * sin (tm.phase + t * tm.frequency))).sum

/-- Middle loop of `VsopDeriv` over the active series of one formula.  The
C loop carries `tpower = t^s` and `dpower = t^(s-1)` (initially `0`), only
accumulates `cos_sum` when `s > 0` (the `if` below; when `s = 0` the inner
loop leaves `cos_sum = 0`), and adds
`(s * dpower * cos_sum) - (tpower * sin_sum)` per series. -/
def VsopDerivFormula (t : ℚ) : List vsop_series_t → Nat → ℚ → ℚ → ℚ
  | [], _, _, _ => 0
  | series :: rest, s, tpower, dpower =>
      ((s : ℚ) * dpower * (if 0 < s then SeriesCosSum cos t series else 0)
          - tpower * SeriesSinSum sin t series)
        + VsopDerivFormula t rest (s + 1) (tpower * t) tpower

/-- Derivative evaluator `VsopDeriv`: one value per coordinate formula. -/
def VsopDeriv (model : vsop_model_t) (t : ℚ) : List ℚ :=
  model.formula.map
    (fun formula => VsopDerivFormula cos sin t (formula.series.take formula.nseries_calc) 0 1 0)

/-- Spherical-to-rectangular conversion (`SphereToRect`). -/
def SphereToRect (lon lat radius : ℚ) : ℚ × ℚ × ℚ :=
  let r_coslat := radius * cos lat
  (r_coslat * cos lon, r_coslat * sin lon, radius * sin lat)

end Evaluators

/-- Fixed ecliptic-to-equatorial rotation (`VsopRotate`). -/
def VsopRotate (ecliptic : ℚ × ℚ × ℚ) : ℚ × ℚ × ℚ :=
  (ecliptic.1 + 0.000000440360 * ecliptic.2.1 - 0.000000190919 * ecliptic.2.2,
   -0.000000479966 * ecliptic.1 + 0.917482137087 * ecliptic.2.1 - 0.397776982902 * ecliptic.2.2,
   0.397776982902 * ecliptic.2.1 + 0.917482137087 * ecliptic.2.2)

section PosVel

variable (cos sin : ℚ → ℚ)

/-- Position and velocity evaluator `VsopCalcPosVel`.  The C function
returns an error code and writes `pos`/`vel` only on success; here failure
is `none`, so no output is produced on the failing paths. -/
def VsopCalcPosVel (model : vsop_model_t) (tt : ℚ) :
    Option ((ℚ × ℚ × ℚ) × (ℚ × ℚ × ℚ)) :=
  let t := Millennia tt
  if model.version ≠ .VSOP_HELIO_SPHER_J2000 then none
  else if model.ncoords ≠ 3 then none
  else
    let coords := VsopCoords cos model t
    let eclip := SphereToRect cos sin (coords.getD 0 0) (coords.getD 1 0) (coords.getD 2 0)
    let pos := VsopRotate eclip
    let deriv := VsopDeriv cos sin model t
    let coslon := cos (coords.getD 0 0)
    let sinlon := sin (coords.getD 0 0)
    let coslat := cos (coords.getD 1 0)
    let sinlat := sin (coords.getD 1 0)
    let r := coords.getD 2 0
    let dlon_dt := deriv.getD 0 0
    let dlat_dt := deriv.getD 1 0
    let dr_dt := deriv.getD 2 0
    let vx := (dr_dt * coslat * coslon) - (r * sinlat * coslon * dlat_dt)
                - (r * coslat * sinlon * dlon_dt)
    let vy := (dr_dt * coslat * sinlon) - (r * sinlat * sinlon * dlat_dt)
                + (r * coslat * coslon * dlon_dt)
    let vz := (dr_dt * sinlat) + (r * coslat * dlat_dt)
    let vel := VsopRotate (vx, vy, vz)
    some (pos, (vel.1 / DAYS_PER_MILLENNIUM, vel.2.1 / DAYS_PER_MILLENNIUM,
                vel.2.2 / DAYS_PER_MILLENNIUM))

end PosVel

/-! ### Helper lemmas relating the loop translations to indexed sums -/

theorem getD_take_eq {α : Type} (l : List α) {n i : Nat} (d : α) (h : i < n) :
    (l.take n).getD i d = l.getD i d := by
  simp [List.getD, List.getElem?_take, h]

theorem map_set_eq {α β : Type} (f : α → β) (l : List α) (i : Nat) (a : α) :
    (l.set i a).map f = (l.map f).set i (f a) := by
  induction l generalizing i with
  | nil => simp
  | cons x xs ih => cases i <;> simp [ih]

theorem set_getD_self {α : Type} (l : List α) (i : Nat) (d : α) :
    l.set i (l.getD i d) = l := by
  induction l generalizing i with
  | nil => simp
  | cons x xs ih =>
      cases i with
      | zero => simp
      | succ n =>
          simp only [List.getD_cons_succ, List.set_cons_succ]
          rw [ih]

theorem sum_take_map {α : Type} [Inhabited α] (g : α → ℚ) (hg : g default = 0) :
    ∀ (l : List α) (n : Nat),
      ((l.take n).map g).sum = ∑ i ∈ Finset.range n, g (l.getD i default) := by
  intro l
  induction l with
  | nil =>
      intro n
      simp [List.getD, hg]
  | cons a l ih =>
      intro n
      cases n with
      | zero => simp
      | succ n =>
          rw [Finset.sum_range_succ']
          simp only [List.take_succ_cons, List.map_cons, List.sum_cons, List.getD_cons_succ,
            List.getD_cons_zero, ih n]
          ring

/-! ### Claim C1: the position evaluator computes the VSOP87 double sum -/

theorem default_term_amplitude : (default : vsop_term_t).amplitude = 0 := rfl

theorem default_series_nterms_calc : (default : vsop_series_t).nterms_calc = 0 := rfl

theorem default_series_term : (default : vsop_series_t).term = [] := rfl

theorem default_formula_series : (default : vsop_formula_t).series = [] := rfl

theorem default_formula_nseries_calc : (default : vsop_formula_t).nseries_calc = 0 := rfl

section CoordsSpec

variable (cos sin : ℚ → ℚ)

/-- Specification-side value of one coordinate:
`Σ_s t^s · Σ_i amplitude_i · cos(phase_i + t · frequency_i)`, summing only
over the active series (`s < nseries_calc`) and active terms
(`i < nterms_calc`). -/
def CoordSpec (t : ℚ) (f : vsop_formula_t) : ℚ :=
  ∑ s ∈ Finset.range f.nseries_calc,
    t ^ s *
      ∑ i ∈ Finset.range (f.series.getD s default).nterms_calc,
        ((f.series.getD s default).term.getD i default).amplitude *
          cos (((f.series.getD s default).term.getD i default).phase +
            t * ((f.series.getD s default).term.getD i default).frequency)

theorem SeriesCosSum_eq_sum (t : ℚ) (s : vsop_series_t) :
    SeriesCosSum cos t s =
      ∑ i ∈ Finset.range s.nterms_calc,
        (s.term.getD i default).amplitude *
          cos ((s.term.getD i default).phase + t * (s.term.getD i default).frequency) :=
  sum_take_map _ (by rw [default_term_amplitude, zero_mul]) s.term s.nterms_calc

theorem SeriesCosSum_default (t : ℚ) : SeriesCosSum cos t default = 0 := by
  rw [SeriesCosSum, default_series_nterms_calc, List.take_zero, List.map_nil, List.sum_nil]

theorem VsopCoordsFormula_eq_sum (t : ℚ) :
    ∀ (ss : List vsop_series_t) (p : ℚ),
      VsopCoordsFormula cos t ss p =
        ∑ i ∈ Finset.range ss.length, p * t ^ i * SeriesCosSum cos t (ss.getD i default) := by
  intro ss
  induction ss with
  | nil => intro p; simp [VsopCoordsFormula]
  | cons s rest ih =>
      intro p
      rw [VsopCoordsFormula, ih (p * t), List.length_cons, Finset.sum_range_succ']
      simp only [List.getD_cons_succ, List.getD_cons_zero, pow_zero, mul_one]
      rw [add_comm (p * SeriesCosSum cos t s)]
      congr 1
      exact Finset.sum_congr rfl (fun i _ => by rw [pow_succ]; ring)

theorem VsopCoordsFormula_take_eq (t : ℚ) (f : vsop_formula_t) :
    VsopCoordsFormula cos t (f.series.take f.nseries_calc) 1 = CoordSpec cos t f := by
  rw [VsopCoordsFormula_eq_sum]
  have hspec : CoordSpec cos t f =
      ∑ s ∈ Finset.range f.nseries_calc, t ^ s * SeriesCosSum cos t (f.series.getD s default) := by
    unfold CoordSpec
    exact Finset.sum_congr rfl (fun s _ => by rw [SeriesCosSum_eq_sum])
  rw [hspec]
  rcases le_or_lt f.nseries_calc f.series.length with hle | hlt
  · rw [List.length_take, min_eq_left hle]
    refine Finset.sum_congr rfl (fun i hi => ?_)
    rw [Finset.mem_range] at hi
    rw [getD_take_eq _ _ hi, one_mul]
  · rw [List.length_take, min_eq_right hlt.le]
    have h1 : ∑ i ∈ Finset.range f.series.length,
          (1 : ℚ) * t ^ i * SeriesCosSum cos t ((f.series.take f.nseries_calc).getD i default)
        = ∑ i ∈ Finset.range f.series.length,
            t ^ i * SeriesCosSum cos t (f.series.getD i default) :=
      Finset.sum_congr rfl (fun i hi => by
        rw [Finset.mem_range] at hi
        rw [getD_take_eq _ _ (hi.trans hlt), one_mul])
    rw [h1]
    refine Finset.sum_subset (Finset.range_subset.2 hlt.le) (fun i _ hni => ?_)
    rw [Finset.mem_range, not_lt] at hni
    rw [List.getD_eq_default _ _ hni, SeriesCosSum_default, mul_zero]

/-- C1: for every model and every time `tt` in days, the position evaluator
computes, for each coordinate, the double sum
`Σ_s t^s · Σ_i amplitude_i · cos(phase_i + t · frequency_i)` with
`t = tt / 365250`, summing only over the active (`calc`) series and terms;
the iteration runs terms innermost, then series, then coordinates, which
the definitions `SeriesCosSum`, `VsopCoordsFormula` and `VsopCoords`
mirror loop for loop. -/
theorem VsopCoords_computes_spec (model : vsop_model_t) (tt : ℚ) :
    VsopCoords cos model (Millennia tt) =
      model.formula.map (fun formula => CoordSpec cos (tt / 365250) formula) := by
  have ht : Millennia tt = tt / 365250 := rfl
  unfold VsopCoords
  rw [ht]
  exact List.map_congr_left (fun f _ => VsopCoordsFormula_take_eq cos (tt / 365250) f)

end CoordsSpec

/-! ### Claim C2: the derivative evaluator computes the term-wise derivative -/

section DerivSpecSection

variable (cos sin : ℚ → ℚ)

/-- Specification-side derivative of one coordinate: for each active series
at power `s`, the contribution `s·t^(s−1)·Σ amplitude·cos(angle)` (only for
`s > 0`) minus `t^s·Σ amplitude·frequency·sin(angle)` (for every series,
including `s = 0`), with `angle = phase + t·frequency`, terms at or beyond
`nterms_calc` excluded. -/
def DerivSpec (t : ℚ) (f : vsop_formula_t) : ℚ :=
  ∑ s ∈ Finset.range f.nseries_calc,
    ((if 0 < s then
        (s : ℚ) * t ^ (s - 1) *
          ∑ i ∈ Finset.range (f.series.getD s default).nterms_calc,
            ((f.series.getD s default).term.getD i default).amplitude *
              cos (((f.series.getD s default).term.getD i default).phase +
                t * ((f.series.getD s default).term.getD i default).frequency)
      else 0)
      - t ^ s *
          ∑ i ∈ Finset.range (f.series.getD s default).nterms_calc,
            ((f.series.getD s default).term.getD i default).amplitude *
              ((f.series.getD s default).term.getD i default).frequency *
              sin (((f.series.getD s default).term.getD i default).phase +
                t * ((f.series.getD s default).term.getD i default).frequency))

/-- One summand of `DerivSpec`, still phrased with the loop-level sums. -/
def DerivTermSpec (t : ℚ) (s : Nat) (series : vsop_series_t) : ℚ :=
  (if 0 < s then (s : ℚ) * t ^ (s - 1) * SeriesCosSum cos t series else 0)
    - t ^ s * SeriesSinSum sin t series

theorem SeriesSinSum_eq_sum (t : ℚ) (s : vsop_series_t) :
    SeriesSinSum sin t s =
      ∑ i ∈ Finset.range s.nterms_calc,
        (s.term.getD i default).amplitude * (s.term.getD i default).frequency *
          sin ((s.term.getD i default).phase + t * (s.term.getD i default).frequency) :=
  sum_take_map _ (by rw [default_term_amplitude, zero_mul, zero_mul]) s.term s.nterms_calc

theorem SeriesSinSum_default (t : ℚ) : SeriesSinSum sin t default = 0 := by
  rw [SeriesSinSum, default_series_nterms_calc, List.take_zero, List.map_nil, List.sum_nil]

theorem DerivTermSpec_default (t : ℚ) (s : Nat) : DerivTermSpec cos sin t s default = 0 := by
  rw [DerivTermSpec, SeriesCosSum_default, SeriesSinSum_default]
  simp

theorem VsopDerivFormula_eq_sum (t : ℚ) :
    ∀ (ss : List vsop_series_t) (j : Nat),
      VsopDerivFormula cos sin t ss j (t ^ j) (if j = 0 then 0 else t ^ (j - 1)) =
        ∑ i ∈ Finset.range ss.length, DerivTermSpec cos sin t (j + i) (ss.getD i default) := by
  intro ss
  induction ss with
  | nil => intro j; simp [VsopDerivFormula]
  | cons s rest ih =>
      intro j
      rw [VsopDerivFormula]
      have etail : VsopDerivFormula cos sin t rest (j + 1) (t ^ j * t) (t ^ j) =
          ∑ i ∈ Finset.range rest.length, DerivTermSpec cos sin t (j + 1 + i) (rest.getD i default) := by
        rw [show t ^ j * t = t ^ (j + 1) from (pow_succ t j).symm,
          show (t ^ j : ℚ) = if j + 1 = 0 then 0 else t ^ (j + 1 - 1) from by simp]
        exact ih (j + 1)
      rw [etail, List.length_cons, Finset.sum_range_succ']
      simp only [List.getD_cons_succ, List.getD_cons_zero, Nat.add_zero]
      rw [add_comm ((j : ℚ) * (if j = 0 then 0 else t ^ (j - 1)) *
        (if 0 < j then SeriesCosSum cos t s else 0) - t ^ j * SeriesSinSum sin t s)]
      congr 1
      · exact Finset.sum_congr rfl (fun i _ => by
          rw [show j + (i + 1) = j + 1 + i from by omega])
      · rcases Nat.eq_zero_or_pos j with hj | hj
        · subst hj
          rw [DerivTermSpec]
          simp
        · rw [DerivTermSpec, if_pos hj, if_pos hj, if_neg (Nat.pos_iff_ne_zero.mp hj)]

theorem VsopDerivFormula_take_eq (t : ℚ) (f : vsop_formula_t) :
    VsopDerivFormula cos sin t (f.series.take f.nseries_calc) 0 1 0 = DerivSpec cos sin t f := by
  have h0 : VsopDerivFormula cos sin t (f.series.take f.nseries_calc) 0 1 0 =
      ∑ i ∈ Finset.range (f.series.take f.nseries_calc).length,
        DerivTermSpec cos sin t i ((f.series.take f.nseries_calc).getD i default) := by
    have := VsopDerivFormula_eq_sum cos sin t (f.series.take f.nseries_calc) 0
    simp only [pow_zero, if_pos rfl, Nat.zero_add] at this
    exact this
  have hspec : DerivSpec cos sin t f =
      ∑ s ∈ Finset.range f.nseries_calc, DerivTermSpec cos sin t s (f.series.getD s default) := by
    unfold DerivSpec DerivTermSpec
    exact Finset.sum_congr rfl (fun s _ => by rw [SeriesCosSum_eq_sum, SeriesSinSum_eq_sum])
  rw [h0, hspec]
  rcases le_or_lt f.nseries_calc f.series.length with hle | hlt
  · rw [List.length_take, min_eq_left hle]
    refine Finset.sum_congr rfl (fun i hi => ?_)
    rw [Finset.mem_range] at hi
    rw [getD_take_eq _ _ hi]
  · rw [List.length_take, min_eq_right hlt.le]
    have h1 : ∑ i ∈ Finset.range f.series.length,
          DerivTermSpec cos sin t i ((f.series.take f.nseries_calc).getD i default)
        = ∑ i ∈ Finset.range f.series.length,
            DerivTermSpec cos sin t i (f.series.getD i default) :=
      Finset.sum_congr rfl (fun i hi => by
        rw [Finset.mem_range] at hi
        rw [getD_take_eq _ _ (hi.trans hlt)])
    rw [h1]
    refine Finset.sum_subset (Finset.range_subset.2 hlt.le) (fun i _ hni => ?_)
    rw [Finset.mem_range, not_lt] at hni
    rw [List.getD_eq_default _ _ hni, DerivTermSpec_default]

/-- C2: for every model and time `t` in millennia, the derivative evaluator
computes, for each coordinate, the sum over active series of
`s·t^(s−1)·Σ amplitude·cos(angle)` for powers `s > 0`, minus
`t^s·Σ amplitude·frequency·sin(angle)` for every series including `s = 0`,
with `angle = phase + t·frequency`, excluding terms at or beyond
`nterms_calc` exactly as the position evaluator does. -/
theorem VsopDeriv_computes_spec (model : vsop_model_t) (t : ℚ) :
    VsopDeriv cos sin model t = model.formula.map (fun f => DerivSpec cos sin t f) := by
  unfold VsopDeriv
  exact List.map_congr_left (fun f _ => VsopDerivFormula_take_eq cos sin t f)

end DerivSpecSection

/-! ### Claim C3: `VsopCalcPosVel` succeeds exactly for spherical J2000 with 3 coordinates -/

/-- C3: for every model and every time, the position-and-velocity operation
succeeds exactly when the model's version is heliocentric-spherical-J2000
and `ncoords` is exactly 3; for every other version, and for `ncoords`
different from 3, it returns an error (`none`), producing no position or
velocity output. -/
theorem VsopCalcPosVel_isSome_iff (cos sin : ℚ → ℚ) (model : vsop_model_t) (tt : ℚ) :
    (VsopCalcPosVel cos sin model tt).isSome ↔
      (model.version = .VSOP_HELIO_SPHER_J2000 ∧ model.ncoords = 3) := by
  by_cases h1 : model.version = .VSOP_HELIO_SPHER_J2000
  · by_cases h2 : model.ncoords = 3
    · simp [VsopCalcPosVel, h1, h2]
    · simp [VsopCalcPosVel, h1, h2]
  · simp [VsopCalcPosVel, h1]

/-! ### Truncation engine (`Power`, `ModelTypeScaling`, `VsopTruncate`, `VsopTrim`) -/

/-- Iterated multiplication (`Power`): `p = 1; for (i=0; i<n; ++i) p *= t`. -/
def Power (t : ℚ) : Nat → ℚ
  | 0 => 1
  | n + 1 => Power t n * t

theorem Power_eq_pow (t : ℚ) : ∀ n, Power t n = t ^ n := by
  intro n
  induction n with
  | zero => rfl
  | succ n ih => rw [Power, ih, pow_succ]

/-- Body-distance part of `ModelTypeScaling`: typical distance from the Sun
in AU, used to weigh distance coordinates.  The table has entries only for
Mercury through Neptune plus EMB; every other body (including the Sun)
falls to the `default` error case. -/
def BodyDistanceScaling : vsop_body_t → Option ℚ
  | .VSOP_MERCURY => some 0.387098
  | .VSOP_VENUS => some 0.723332
  | .VSOP_EARTH => some 1.000000
  | .VSOP_EMB => some 1.000000
  | .VSOP_MARS => some 1.523679
  | .VSOP_JUPITER => some 5.2044
  | .VSOP_SATURN => some 9.5826
  | .VSOP_URANUS => some 19.2184
  | .VSOP_NEPTUNE => some 30.11
  | _ => none

/-- Per-coordinate scaling factor (`ModelTypeScaling`): rectangular versions
use the body-distance metric for every coordinate; spherical versions use
`1.0` for the two angular coordinates (`k = 0, 1`) and the body-distance
metric for the radius; the elliptic and barycentric versions (and the
invalid sentinel) are unsupported and fail (`none`, error code 1 in C). -/
def ModelTypeScaling (model : vsop_model_t) (k : Nat) : Option ℚ :=
  match model.version with
  | .VSOP_HELIO_RECT_J2000 | .VSOP_HELIO_RECT_DATE => BodyDistanceScaling model.body
  | .VSOP_HELIO_SPHER_J2000 | .VSOP_HELIO_SPHER_DATE =>
      if k = 0 ∨ k = 1 then some 1 else BodyDistanceScaling model.body
  | _ => none

/-- Candidate search of the `VsopTruncate` inner loop: scan the series with
index `s` counting up from the given start, considering the last active
term of each non-empty series, and return the index and increment
`Power t s * |amplitude|` of the strictly smallest increment (the earliest
series wins ties, as in the C forward scan that replaces the best only on
`increment < incr_best`). -/
def FindBest (t : ℚ) : List vsop_series_t → Nat → Option (Nat × ℚ)
  | [], _ => none
  | series :: rest, s =>
      if 0 < series.nterms_calc then
        let increment := Power t s * |(series.term.getD (series.nterms_calc - 1) default).amplitude|
        match FindBest t rest (s + 1) with
        | none => some (s, increment)
        | some (sb, incrb) =>
            if incrb < increment then some (sb, incrb) else some (s, increment)
      else FindBest t rest (s + 1)

/-- Removal of the last active term of the series at index `i`
(`--(s_best->nterms_calc)` in C). -/
def DecrementAt (l : List vsop_series_t) (i : Nat) : List vsop_series_t :=
  l.set i { l.getD i default with nterms_calc := (l.getD i default).nterms_calc - 1 }

/-- Total number of active terms over all series slots of a formula; used
as loop fuel for the greedy removal loop (each iteration removes exactly
one active term, so this many iterations always suffice). -/
def SeriesFuel (f : vsop_formula_t) : Nat := (f.series.map (fun s => s.nterms_calc)).sum

/-- Greedy removal loop of `VsopTruncate` for one coordinate: repeatedly
find the smallest removable increment; stop when there is none or when
removing it would push the accumulated total over the scaled threshold
(`accum + incr_best > scaled_threshold`); otherwise remove it and repeat. -/
def TruncLoop (t thr : ℚ) : Nat → vsop_formula_t → ℚ → vsop_formula_t
  | 0, f, _ => f
  | fuel + 1, f, accum =>
      match FindBest t (f.series.take f.nseries_calc) 0 with
      | none => f
      | some (sb, incr) =>
          if thr < accum + incr then f
          else TruncLoop t thr fuel { f with series := DecrementAt f.series sb } (accum + incr)

/-- Per-coordinate loop of `VsopTruncate` (`for k < ncoords`), with the C
early return on a scaling failure: the failing coordinate and all later
ones are left untouched and the error code is 1. -/
def TruncGo (model : vsop_model_t) (t thr : ℚ) : List vsop_formula_t → Nat → Nat × List vsop_formula_t
  | [], _ => (0, [])
  | f :: rest, k =>
      match ModelTypeScaling model k with
      | none => (1, f :: rest)
      | some scaling =>
          let f2 := TruncLoop t (scaling * thr) (SeriesFuel f) f 0
          let r := TruncGo model t thr rest (k + 1)
          (r.1, f2 :: r.2)

/-- Reset of one series (`series->nterms_calc = series->nterms_total`). -/
def ResetSeries (s : vsop_series_t) : vsop_series_t :=
  { s with nterms_calc := s.term.length }

/-- Reset of one formula (`formula->nseries_calc = formula->nseries_total`
plus the series resets). -/
def ResetFormula (f : vsop_formula_t) : vsop_formula_t :=
  { f with nseries_calc := f.series.length, series := f.series.map ResetSeries }

/-- Reset step of `VsopTruncate`: set every `nseries_calc` and every
`nterms_calc` back to the corresponding total count, undoing any previous
truncation. -/
def ResetCalc (m : vsop_model_t) : vsop_model_t :=
  { m with formula := m.formula.map ResetFormula }

/-- Truncation engine `VsopTruncate`: returns the C error code paired with
the mutated model (the C function mutates `model` in place and returns an
`int`). -/
def VsopTruncate (model : vsop_model_t) (tt1 tt2 amplitudeThreshold : ℚ) : Nat × vsop_model_t :=
  let t1 := |Millennia tt1|
  let t2 := |Millennia tt2|
  let t := if t2 < t1 then t1 else t2
  let model2 := ResetCalc model
  let r := TruncGo model2 t amplitudeThreshold model2.formula 0
  (r.1, { model2 with formula := r.2 })

/-- Trailing-empty-series loop of `VsopTrim`:
`while (n > 0 && series[n-1].nterms_calc == 0) --n`. -/
def TrimLoop (series : List vsop_series_t) : Nat → Nat
  | 0 => 0
  | n + 1 => if (series.getD n default).nterms_calc = 0 then TrimLoop series n else n + 1

/-- Trim operation `VsopTrim`: drop trailing series whose active term count
is zero, per coordinate. -/
def VsopTrim (model : vsop_model_t) : vsop_model_t :=
  { model with formula := model.formula.map (fun f =>
      { f with nseries_calc := TrimLoop f.series f.nseries_calc }) }

/-- Number of active terms of one coordinate: sum of `nterms_calc` over the
active series (the per-coordinate inner sum of `VsopTermCount`). -/
def ActiveTermCount (f : vsop_formula_t) : Nat :=
  ((f.series.take f.nseries_calc).map (fun s => s.nterms_calc)).sum

/-- Specification-side sum of removed increments for one coordinate: for
each series slot at power `s`, each removed tail term (index at or beyond
`nterms_calc`) contributes `Power t s * |amplitude|`. -/
def RemovedAmpSum (t : ℚ) : List vsop_series_t → Nat → ℚ
  | [], _ => 0
  | s :: rest, i =>
      Power t i * ((s.term.drop s.nterms_calc).map (fun tm => |tm.amplitude|)).sum
        + RemovedAmpSum t rest (i + 1)

/-- Specification-side extreme time of the truncation interval:
`max(|tt1|, |tt2|) / 365250`, as the claims state it. -/
def TruncSpecTime (tt1 tt2 : ℚ) : ℚ := max |tt1| |tt2| / 365250

/-! ### Claim C7: trim removes exactly the trailing empty series -/

theorem getD_map_eq {α β : Type} (g : α → β) (l : List α) (d : α) :
    ∀ k, (l.map g).getD k (g d) = g (l.getD k d) := by
  induction l with
  | nil => intro k; simp [List.getD]
  | cons x xs ih => intro k; cases k <;> simp [ih]

theorem TrimLoop_le (series : List vsop_series_t) : ∀ n, TrimLoop series n ≤ n := by
  intro n
  induction n with
  | zero => exact le_rfl
  | succ n ih =>
      rw [TrimLoop]
      split
      · exact ih.trans (Nat.le_succ n)
      · exact le_rfl

theorem TrimLoop_ends_nonempty (series : List vsop_series_t) :
    ∀ n, TrimLoop series n = 0 ∨
      0 < (series.getD (TrimLoop series n - 1) default).nterms_calc := by
  intro n
  induction n with
  | zero => exact Or.inl rfl
  | succ n ih =>
      rw [TrimLoop]
      split
      · exact ih
      · rename_i h
        exact Or.inr (Nat.pos_of_ne_zero (by simpa using h))

theorem TrimLoop_zero_between (series : List vsop_series_t) :
    ∀ n j, TrimLoop series n ≤ j → j < n → (series.getD j default).nterms_calc = 0 := by
  intro n
  induction n with
  | zero => intro j _ hj; exact absurd hj (Nat.not_lt_zero j)
  | succ n ih =>
      intro j h1 h2
      rw [TrimLoop] at h1
      revert h1
      split
      · intro h1
        rcases Nat.lt_succ_iff_lt_or_eq.mp h2 with hlt | heq
        · exact ih j h1 hlt
        · rename_i h; exact heq ▸ h
      · intro h1
        exact absurd h2 (Nat.not_lt.mpr h1)

theorem TrimLoop_of_last_nonempty (series : List vsop_series_t) (n : Nat)
    (hn : 0 < n) (h : 0 < (series.getD (n - 1) default).nterms_calc) :
    TrimLoop series n = n := by
  rcases Nat.exists_eq_succ_of_ne_zero (Nat.pos_iff_ne_zero.mp hn) with ⟨m, rfl⟩
  rw [TrimLoop, if_neg]
  simpa using Nat.pos_iff_ne_zero.mp h

/-- C7: trim removes only trailing series whose active term count is zero.
For every model and coordinate (with `f` the formula before and `f'` the
formula after `VsopTrim`): the series data is unchanged; the new active
series count is at most the old one; the new count is zero or ends in a
series with active terms; every series slot between the new and the old
count is empty — together these say `nseries_calc` becomes the largest
prefix length ending in a non-empty series.  In particular a formula whose
last active series is non-empty (e.g. an empty series followed by a
non-empty active series at a higher power) is left completely unchanged. -/
theorem VsopTrim_spec (m : vsop_model_t) (k : Nat) :
    ((VsopTrim m).formula.getD k default).series = (m.formula.getD k default).series ∧
    ((VsopTrim m).formula.getD k default).nseries_calc ≤
      (m.formula.getD k default).nseries_calc ∧
    (((VsopTrim m).formula.getD k default).nseries_calc = 0 ∨
      0 < ((m.formula.getD k default).series.getD
        (((VsopTrim m).formula.getD k default).nseries_calc - 1) default).nterms_calc) ∧
    (∀ j, ((VsopTrim m).formula.getD k default).nseries_calc ≤ j →
      j < (m.formula.getD k default).nseries_calc →
      ((m.formula.getD k default).series.getD j default).nterms_calc = 0) ∧
    (0 < (m.formula.getD k default).nseries_calc →
      0 < ((m.formula.getD k default).series.getD
        ((m.formula.getD k default).nseries_calc - 1) default).nterms_calc →
      (VsopTrim m).formula.getD k default = m.formula.getD k default) := by
  have hmap : (VsopTrim m).formula.getD k default =
      (⟨(m.formula.getD k default).series,
        TrimLoop (m.formula.getD k default).series
          (m.formula.getD k default).nseries_calc⟩ : vsop_formula_t) :=
    getD_map_eq ((fun f => { f with nseries_calc := TrimLoop f.series f.nseries_calc }) :
      vsop_formula_t → vsop_formula_t) m.formula default k
  set f := m.formula.getD k default with hf
  rw [hmap]
  refine ⟨rfl, TrimLoop_le f.series f.nseries_calc, ?_, ?_, ?_⟩
  · exact TrimLoop_ends_nonempty f.series f.nseries_calc
  · intro j h1 h2
    exact TrimLoop_zero_between f.series f.nseries_calc j h1 h2
  · intro hn h
    rw [TrimLoop_of_last_nonempty f.series f.nseries_calc hn h]

/-! ### Claim C5: truncation is idempotent -/

theorem ResetSeries_set_calc (s : vsop_series_t) (n : Nat) :
    ResetSeries { s with nterms_calc := n } = ResetSeries s := rfl

theorem map_ResetSeries_DecrementAt (l : List vsop_series_t) (i : Nat) :
    (DecrementAt l i).map ResetSeries = l.map ResetSeries := by
  rw [DecrementAt, map_set_eq, ResetSeries_set_calc]
  rw [show ResetSeries (l.getD i default) = (l.map ResetSeries).getD i (ResetSeries default) from
    (getD_map_eq ResetSeries l default i).symm]
  exact set_getD_self _ _ _

theorem ResetFormula_eq_of_series (f g : vsop_formula_t)
    (h : f.series.map ResetSeries = g.series.map ResetSeries) :
    ResetFormula f = ResetFormula g := by
  have hl : f.series.length = g.series.length := by
    rw [← List.length_map f.series ResetSeries, h, List.length_map]
  show (⟨f.series.map ResetSeries, f.series.length⟩ : vsop_formula_t) =
    ⟨g.series.map ResetSeries, g.series.length⟩
  rw [h, hl]

theorem ResetFormula_TruncLoop (t thr : ℚ) :
    ∀ (fuel : Nat) (f : vsop_formula_t) (accum : ℚ),
      ResetFormula (TruncLoop t thr fuel f accum) = ResetFormula f := by
  intro fuel
  induction fuel with
  | zero => intro f accum; rfl
  | succ fuel ih =>
      intro f accum
      rcases hfb : FindBest t (f.series.take f.nseries_calc) 0 with _ | ⟨sb, incr⟩
      · simp only [TruncLoop, hfb]
      · simp only [TruncLoop, hfb]
        split
        · rfl
        · rw [ih]
          exact ResetFormula_eq_of_series _ _ (map_ResetSeries_DecrementAt f.series sb)

theorem map_ResetFormula_TruncGo (model : vsop_model_t) (t thr : ℚ) :
    ∀ (fs : List vsop_formula_t) (k : Nat),
      ((TruncGo model t thr fs k).2).map ResetFormula = fs.map ResetFormula := by
  intro fs
  induction fs with
  | nil => intro k; rfl
  | cons f rest ih =>
      intro k
      rcases hms : ModelTypeScaling model k with _ | scaling
      · simp only [TruncGo, hms]
      · simp only [TruncGo, hms, List.map_cons]
        rw [ResetFormula_TruncLoop, ih]

theorem ResetFormula_idem (f : vsop_formula_t) :
    ResetFormula (ResetFormula f) = ResetFormula f := by
  show (⟨(f.series.map ResetSeries).map ResetSeries, (f.series.map ResetSeries).length⟩ :
    vsop_formula_t) = ⟨f.series.map ResetSeries, f.series.length⟩
  rw [List.map_map, List.length_map]
  have hcomp : f.series.map (ResetSeries ∘ ResetSeries) = f.series.map ResetSeries :=
    List.map_congr_left (fun s _ => rfl)
  rw [hcomp]

theorem ResetCalc_VsopTruncate (m : vsop_model_t) (tt1 tt2 thr : ℚ) :
    ResetCalc (VsopTruncate m tt1 tt2 thr).2 = ResetCalc m := by
  show ResetCalc { ResetCalc m with
      formula := (TruncGo (ResetCalc m)
        (if |Millennia tt2| < |Millennia tt1| then |Millennia tt1| else |Millennia tt2|)
        thr (ResetCalc m).formula 0).2 } = ResetCalc m
  show (⟨m.version, m.body,
    ((TruncGo (ResetCalc m)
      (if |Millennia tt2| < |Millennia tt1| then |Millennia tt1| else |Millennia tt2|)
      thr (ResetCalc m).formula 0).2).map ResetFormula⟩ : vsop_model_t) = ResetCalc m
  rw [map_ResetFormula_TruncGo]
  show (⟨m.version, m.body, ((m.formula.map ResetFormula).map ResetFormula)⟩ : vsop_model_t) =
    ResetCalc m
  have hcomp : m.formula.map (ResetFormula ∘ ResetFormula) = m.formula.map ResetFormula :=
    List.map_congr_left (fun f _ => ResetFormula_idem f)
  rw [List.map_map, hcomp]
  rfl

theorem VsopTruncate_congr_reset (a b : vsop_model_t) (tt1 tt2 thr : ℚ)
    (h : ResetCalc a = ResetCalc b) :
    VsopTruncate a tt1 tt2 thr = VsopTruncate b tt1 tt2 thr := by
  unfold VsopTruncate
  rw [h]

/-- C5: truncating twice with the same interval and threshold produces the
same error code and exactly the same model state (in particular the same
`nterms_calc` and `nseries_calc` everywhere) as truncating once, because
each run first resets all calc counts to the total counts. -/
theorem VsopTruncate_idempotent (m : vsop_model_t) (tt1 tt2 thr : ℚ) :
    VsopTruncate (VsopTruncate m tt1 tt2 thr).2 tt1 tt2 thr = VsopTruncate m tt1 tt2 thr :=
  VsopTruncate_congr_reset _ m tt1 tt2 thr (ResetCalc_VsopTruncate m tt1 tt2 thr)

/-! ### Claim C6: a larger threshold never leaves more active terms -/

theorem getD_prop {α : Type} [Inhabited α] (P : α → Prop) (l : List α)
    (hl : ∀ x ∈ l, P x) (hd : P default) (j : Nat) : P (l.getD j default) := by
  rcases lt_or_ge j l.length with h | h
  · rw [List.getD_eq_getElem l default h]
    exact hl _ (List.getElem_mem h)
  · rw [List.getD_eq_default _ _ h]
    exact hd

theorem sum_set_le : ∀ (l : List Nat) (i a : Nat), a ≤ l.getD i 0 → (l.set i a).sum ≤ l.sum := by
  intro l
  induction l with
  | nil => intro i a _; exact le_rfl
  | cons x xs ih =>
      intro i a ha
      cases i with
      | zero =>
          simp only [List.set_cons_zero, List.sum_cons]
          exact Nat.add_le_add_right (by simpa using ha) _
      | succ i =>
          simp only [List.set_cons_succ, List.sum_cons]
          exact Nat.add_le_add_left (ih i a (by simpa using ha)) _

theorem SeriesFuel_DecrementAt_le (f : vsop_formula_t) (sb : Nat) :
    SeriesFuel { f with series := DecrementAt f.series sb } ≤ SeriesFuel f := by
  show ((DecrementAt f.series sb).map (fun s => s.nterms_calc)).sum ≤ SeriesFuel f
  rw [DecrementAt, map_set_eq]
  refine sum_set_le _ sb _ ?_
  rw [show (0 : Nat) = (fun s : vsop_series_t => s.nterms_calc) default from rfl,
    getD_map_eq (fun s : vsop_series_t => s.nterms_calc) f.series default sb]
  exact Nat.sub_le _ 1

theorem SeriesFuel_TruncLoop_le (t thr : ℚ) :
    ∀ (fuel : Nat) (f : vsop_formula_t) (accum : ℚ),
      SeriesFuel (TruncLoop t thr fuel f accum) ≤ SeriesFuel f := by
  intro fuel
  induction fuel with
  | zero => intro f accum; exact le_rfl
  | succ fuel ih =>
      intro f accum
      rcases hfb : FindBest t (f.series.take f.nseries_calc) 0 with _ | ⟨sb, incr⟩
      · simp only [TruncLoop, hfb]
        exact le_rfl
      · simp only [TruncLoop, hfb]
        split
        · exact le_rfl
        · exact (ih _ _).trans (SeriesFuel_DecrementAt_le f sb)

theorem TruncLoop_mono (t thr1 thr2 : ℚ) (h12 : thr1 ≤ thr2) :
    ∀ (fuel : Nat) (f : vsop_formula_t) (accum : ℚ),
      SeriesFuel (TruncLoop t thr2 fuel f accum) ≤ SeriesFuel (TruncLoop t thr1 fuel f accum) := by
  intro fuel
  induction fuel with
  | zero => intro f accum; exact le_rfl
  | succ fuel ih =>
      intro f accum
      rcases hfb : FindBest t (f.series.take f.nseries_calc) 0 with _ | ⟨sb, incr⟩
      · simp only [TruncLoop, hfb]
        exact le_rfl
      · simp only [TruncLoop, hfb]
        by_cases h2 : thr2 < accum + incr
        · rw [if_pos h2, if_pos (lt_of_le_of_lt h12 h2)]
        · rw [if_neg h2]
          by_cases h1 : thr1 < accum + incr
          · rw [if_pos h1]
            exact (SeriesFuel_TruncLoop_le t thr2 fuel _ _).trans (SeriesFuel_DecrementAt_le f sb)
          · rw [if_neg h1]
            exact ih _ _

theorem BodyDistanceScaling_nonneg (b : vsop_body_t) (v : ℚ)
    (h : BodyDistanceScaling b = some v) : 0 ≤ v := by
  cases b <;> simp only [BodyDistanceScaling, Option.some.injEq, reduceCtorEq] at h <;>
    rw [← h] <;> norm_num

theorem ModelTypeScaling_nonneg (model : vsop_model_t) (k : Nat) (v : ℚ)
    (h : ModelTypeScaling model k = some v) : 0 ≤ v := by
  cases hv : model.version
  case VSOP_HELIO_RECT_J2000 =>
      simp only [ModelTypeScaling, hv] at h
      exact BodyDistanceScaling_nonneg _ _ h
  case VSOP_HELIO_RECT_DATE =>
      simp only [ModelTypeScaling, hv] at h
      exact BodyDistanceScaling_nonneg _ _ h
  case VSOP_HELIO_SPHER_J2000 =>
      simp only [ModelTypeScaling, hv] at h
      split at h
      · rw [Option.some.injEq] at h
        rw [← h]
        norm_num
      · exact BodyDistanceScaling_nonneg _ _ h
  case VSOP_HELIO_SPHER_DATE =>
      simp only [ModelTypeScaling, hv] at h
      split at h
      · rw [Option.some.injEq] at h
        rw [← h]
        norm_num
      · exact BodyDistanceScaling_nonneg _ _ h
  case VSOP_ELLIPTIC_J2000 => simp [ModelTypeScaling, hv] at h
  case VSOP_BARY_RECT_J2000 => simp [ModelTypeScaling, hv] at h
  case VSOP_INVALID_VERSION => simp [ModelTypeScaling, hv] at h

theorem TruncLoop_nseries_calc (t thr : ℚ) :
    ∀ (fuel : Nat) (f : vsop_formula_t) (accum : ℚ),
      (TruncLoop t thr fuel f accum).nseries_calc = f.nseries_calc := by
  intro fuel
  induction fuel with
  | zero => intro f accum; rfl
  | succ fuel ih =>
      intro f accum
      rcases hfb : FindBest t (f.series.take f.nseries_calc) 0 with _ | ⟨sb, incr⟩
      · simp only [TruncLoop, hfb]
      · simp only [TruncLoop, hfb]
        split
        · rfl
        · rw [ih]

theorem TruncLoop_series_length (t thr : ℚ) :
    ∀ (fuel : Nat) (f : vsop_formula_t) (accum : ℚ),
      (TruncLoop t thr fuel f accum).series.length = f.series.length := by
  intro fuel
  induction fuel with
  | zero => intro f accum; rfl
  | succ fuel ih =>
      intro f accum
      rcases hfb : FindBest t (f.series.take f.nseries_calc) 0 with _ | ⟨sb, incr⟩
      · simp only [TruncLoop, hfb]
      · simp only [TruncLoop, hfb]
        split
        · rfl
        · rw [ih]
          exact List.length_set _ _ _

theorem TruncGo_mono_getD (model : vsop_model_t) (t thr1 thr2 : ℚ) (h12 : thr1 ≤ thr2) :
    ∀ (fs : List vsop_formula_t) (k j : Nat),
      SeriesFuel ((TruncGo model t thr2 fs k).2.getD j default) ≤
        SeriesFuel ((TruncGo model t thr1 fs k).2.getD j default) := by
  intro fs
  induction fs with
  | nil => intro k j; exact le_rfl
  | cons f rest ih =>
      intro k j
      rcases hms : ModelTypeScaling model k with _ | scaling
      · simp only [TruncGo, hms]
        exact le_rfl
      · simp only [TruncGo, hms]
        cases j with
        | zero =>
            simp only [List.getD_cons_zero]
            exact TruncLoop_mono t (scaling * thr1) (scaling * thr2)
              (mul_le_mul_of_nonneg_left h12 (ModelTypeScaling_nonneg model k scaling hms))
              (SeriesFuel f) f 0
        | succ j =>
            simp only [List.getD_cons_succ]
            exact ih (k + 1) j

theorem TruncGo_takeall (model : vsop_model_t) (t thr : ℚ) :
    ∀ (fs : List vsop_formula_t) (k : Nat),
      (∀ f ∈ fs, f.series.length ≤ f.nseries_calc) →
      ∀ j, ((TruncGo model t thr fs k).2.getD j default).series.length ≤
        ((TruncGo model t thr fs k).2.getD j default).nseries_calc := by
  intro fs
  induction fs with
  | nil =>
      intro k _ j
      exact le_rfl
  | cons f rest ih =>
      intro k hall j
      rcases hms : ModelTypeScaling model k with _ | scaling
      · simp only [TruncGo, hms]
        exact getD_prop _ (f :: rest) hall le_rfl j
      · simp only [TruncGo, hms]
        cases j with
        | zero =>
            simp only [List.getD_cons_zero]
            rw [TruncLoop_series_length, TruncLoop_nseries_calc]
            exact hall f (List.mem_cons_self f rest)
        | succ j =>
            simp only [List.getD_cons_succ]
            exact ih (k + 1) (fun g hg => hall g (List.mem_cons_of_mem f hg)) j

theorem ActiveTermCount_eq_SeriesFuel (f : vsop_formula_t)
    (h : f.series.length ≤ f.nseries_calc) : ActiveTermCount f = SeriesFuel f := by
  rw [ActiveTermCount, SeriesFuel, List.take_of_length_le h]

theorem reset_formula_takeall (m : vsop_model_t) :
    ∀ f ∈ (ResetCalc m).formula, f.series.length ≤ f.nseries_calc := by
  intro f hf
  rcases List.mem_map.mp hf with ⟨g, _, rfl⟩
  show (g.series.map ResetSeries).length ≤ g.series.length
  rw [List.length_map]

/-- C6: for a fixed model and interval, truncating with a larger threshold
`b ≥ a` leaves, for every coordinate, an active term count (the sum of
`nterms_calc` over the active series) at most the count left by truncating
with `a`. -/
theorem VsopTruncate_threshold_mono (m : vsop_model_t) (tt1 tt2 a b : ℚ)
    (hab : a ≤ b) (k : Nat) :
    ActiveTermCount ((VsopTruncate m tt1 tt2 b).2.formula.getD k default) ≤
      ActiveTermCount ((VsopTruncate m tt1 tt2 a).2.formula.getD k default) := by
  have hta : ∀ (thr : ℚ), (VsopTruncate m tt1 tt2 thr).2.formula =
      (TruncGo (ResetCalc m)
        (if |Millennia tt2| < |Millennia tt1| then |Millennia tt1| else |Millennia tt2|)
        thr (ResetCalc m).formula 0).2 := fun thr => rfl
  rw [hta a, hta b]
  rw [ActiveTermCount_eq_SeriesFuel _
      (TruncGo_takeall _ _ b _ 0 (reset_formula_takeall m) k),
    ActiveTermCount_eq_SeriesFuel _
      (TruncGo_takeall _ _ a _ 0 (reset_formula_takeall m) k)]
  exact TruncGo_mono_getD _ _ a b hab _ 0 k

/-- Witness for C6 at a concrete model, interval and threshold pair. -/
theorem VsopTruncate_threshold_mono_witness :
    (0 : ℚ) ≤ 1 ∧
      ActiveTermCount (((VsopTruncate ⟨.VSOP_HELIO_SPHER_J2000, .VSOP_EARTH,
          [⟨[⟨[⟨1, 0, 0⟩], 1⟩], 1⟩]⟩ 0 0 1).2).formula.getD 0 default) ≤
        ActiveTermCount (((VsopTruncate ⟨.VSOP_HELIO_SPHER_J2000, .VSOP_EARTH,
          [⟨[⟨[⟨1, 0, 0⟩], 1⟩], 1⟩]⟩ 0 0 0).2).formula.getD 0 default) :=
  ⟨by norm_num,
    VsopTruncate_threshold_mono ⟨.VSOP_HELIO_SPHER_J2000, .VSOP_EARTH,
      [⟨[⟨[⟨1, 0, 0⟩], 1⟩], 1⟩]⟩ 0 0 0 1 (by norm_num) 0⟩

/-! ### Claim C4: removed amplitude stays within the scaled budget -/

theorem FindBest_some_spec (t : ℚ) :
    ∀ (ss : List vsop_series_t) (s0 sb : Nat) (incr : ℚ),
      FindBest t ss s0 = some (sb, incr) →
      ∃ j, j < ss.length ∧ sb = s0 + j ∧ 0 < (ss.getD j default).nterms_calc ∧
        incr = Power t sb *
          |((ss.getD j default).term.getD
            ((ss.getD j default).nterms_calc - 1) default).amplitude| := by
  intro ss
  induction ss with
  | nil => intro s0 sb incr h; simp [FindBest] at h
  | cons series rest ih =>
      intro s0 sb incr h
      by_cases hc : 0 < series.nterms_calc
      · rw [FindBest, if_pos hc] at h
        rcases hrec : FindBest t rest (s0 + 1) with _ | ⟨sb', incrb⟩
        · rw [hrec] at h
          simp only [Option.some.injEq, Prod.mk.injEq] at h
          obtain ⟨rfl, rfl⟩ := h
          exact ⟨0, by simp, by omega, by simpa using hc, by simp⟩
        · rw [hrec] at h
          simp only at h
          by_cases hlt : incrb <
              Power t s0 * |(series.term.getD (series.nterms_calc - 1) default).amplitude|
          · rw [if_pos hlt] at h
            simp only [Option.some.injEq, Prod.mk.injEq] at h
            obtain ⟨rfl, rfl⟩ := h
            obtain ⟨j, hj, hsb, hcalc, hincr⟩ := ih (s0 + 1) _ _ hrec
            exact ⟨j + 1, by simpa using hj, by omega,
              by simpa using hcalc, by simpa using hincr⟩
          · rw [if_neg hlt] at h
            simp only [Option.some.injEq, Prod.mk.injEq] at h
            obtain ⟨rfl, rfl⟩ := h
            exact ⟨0, by simp, by omega, by simpa using hc, by simp⟩
      · rw [FindBest, if_neg hc] at h
        obtain ⟨j, hj, hsb, hcalc, hincr⟩ := ih (s0 + 1) sb incr h
        exact ⟨j + 1, by simpa using hj, by omega,
          by simpa using hcalc, by simpa using hincr⟩

theorem RemovedAmpSum_DecrementAt (t : ℚ) :
    ∀ (l : List vsop_series_t) (sb i : Nat),
      sb < l.length →
      0 < (l.getD sb default).nterms_calc →
      (l.getD sb default).nterms_calc ≤ (l.getD sb default).term.length →
      RemovedAmpSum t (DecrementAt l sb) i =
        RemovedAmpSum t l i +
          Power t (i + sb) *
            |((l.getD sb default).term.getD
              ((l.getD sb default).nterms_calc - 1) default).amplitude| := by
  intro l
  induction l with
  | nil => intro sb i h; exact absurd h (by simp)
  | cons s rest ih =>
      intro sb i hlen hpos hle
      cases sb with
      | zero =>
          simp only [List.getD_cons_zero] at hpos hle ⊢
          have hidx : s.nterms_calc - 1 < s.term.length := by omega
          have hdrop : s.term.drop (s.nterms_calc - 1) =
              s.term[s.nterms_calc - 1] :: s.term.drop (s.nterms_calc - 1 + 1) :=
            List.drop_eq_getElem_cons hidx
          have hsub : s.nterms_calc - 1 + 1 = s.nterms_calc := by omega
          rw [hsub] at hdrop
          show RemovedAmpSum t
            ({ s with nterms_calc := s.nterms_calc - 1 } :: rest) i = _
          rw [RemovedAmpSum, RemovedAmpSum]
          show Power t i * ((s.term.drop (s.nterms_calc - 1)).map
            (fun tm => |tm.amplitude|)).sum + RemovedAmpSum t rest (i + 1) = _
          rw [hdrop, List.map_cons, List.sum_cons,
            List.getD_eq_getElem s.term default hidx, Nat.add_zero]
          ring
      | succ sb =>
          simp only [List.getD_cons_succ] at hpos hle ⊢
          have hlen' : sb < rest.length := by simpa using hlen
          show RemovedAmpSum t (s :: DecrementAt rest sb) i = _
          rw [RemovedAmpSum, RemovedAmpSum, ih sb (i + 1) hlen' hpos hle,
            show i + 1 + sb = i + (sb + 1) from by omega]
          ring

theorem RemovedAmpSum_eq_zero (t : ℚ) :
    ∀ (l : List vsop_series_t) (i : Nat),
      (∀ s ∈ l, s.term.length ≤ s.nterms_calc) → RemovedAmpSum t l i = 0 := by
  intro l
  induction l with
  | nil => intro i _; rfl
  | cons s rest ih =>
      intro i h
      rw [RemovedAmpSum, List.drop_eq_nil_of_le (h s (List.mem_cons_self s rest)),
        ih (i + 1) (fun u hu => h u (List.mem_cons_of_mem s hu))]
      simp

theorem TruncLoop_removed_bound (t thr : ℚ) :
    ∀ (fuel : Nat) (f : vsop_formula_t) (accum : ℚ),
      f.series.length ≤ f.nseries_calc →
      (∀ s ∈ f.series, s.nterms_calc ≤ s.term.length) →
      accum ≤ thr →
      RemovedAmpSum t (TruncLoop t thr fuel f accum).series 0 ≤
        RemovedAmpSum t f.series 0 + (thr - accum) := by
  intro fuel
  induction fuel with
  | zero =>
      intro f accum _ _ hacc
      simp only [TruncLoop]
      linarith
  | succ fuel ih =>
      intro f accum htake hcalc hacc
      rcases hfb : FindBest t (f.series.take f.nseries_calc) 0 with _ | ⟨sb, incr⟩
      · simp only [TruncLoop, hfb]
        linarith
      · rw [List.take_of_length_le htake] at hfb
        obtain ⟨j, hj, hsb, hpos, hincr⟩ := FindBest_some_spec t f.series 0 sb incr hfb
        rw [Nat.zero_add] at hsb
        subst hsb
        simp only [TruncLoop, List.take_of_length_le htake, hfb]
        by_cases hstop : thr < accum + incr
        · rw [if_pos hstop]
          linarith
        · rw [if_neg hstop]
          have hle : (f.series.getD sb default).nterms_calc ≤
              (f.series.getD sb default).term.length :=
            getD_prop (fun s => s.nterms_calc ≤ s.term.length) f.series hcalc le_rfl sb
          have hstep := RemovedAmpSum_DecrementAt t f.series sb 0 hj hpos hle
          rw [Nat.zero_add, ← hincr] at hstep
          have hrec := ih { f with series := DecrementAt f.series sb } (accum + incr)
            (by
              show (DecrementAt f.series sb).length ≤ f.nseries_calc
              rw [DecrementAt, List.length_set]
              exact htake)
            (by
              intro s hs
              rcases List.mem_or_eq_of_mem_set hs with hmem | hup
              · exact hcalc s hmem
              · rw [hup]
                show (f.series.getD sb default).nterms_calc - 1 ≤
                  (f.series.getD sb default).term.length
                omega)
            (not_lt.mp hstop)
          have hsr : ({ f with series := DecrementAt f.series sb } :
              vsop_formula_t).series = DecrementAt f.series sb := rfl
          rw [hsr, hstep] at hrec
          linarith

theorem TruncGo_removed_bound (model : vsop_model_t) (t thr : ℚ) (hthr : 0 ≤ thr) :
    ∀ (fs : List vsop_formula_t) (k : Nat),
      (∀ f ∈ fs, f.series.length ≤ f.nseries_calc ∧
        ∀ s ∈ f.series, s.nterms_calc = s.term.length) →
      (TruncGo model t thr fs k).1 = 0 →
      ∀ j, j < fs.length →
        ∃ scal, ModelTypeScaling model (k + j) = some scal ∧
          RemovedAmpSum t ((TruncGo model t thr fs k).2.getD j default).series 0 ≤
            scal * thr := by
  intro fs
  induction fs with
  | nil => intro k _ _ j hj; exact absurd hj (by simp)
  | cons f rest ih =>
      intro k hall herr j hj
      rcases hms : ModelTypeScaling model k with _ | scaling
      · rw [show (TruncGo model t thr (f :: rest) k).1 = 1 from by
          simp only [TruncGo, hms]] at herr
        exact absurd herr one_ne_zero
      · have herr2 : (TruncGo model t thr rest (k + 1)).1 = 0 := by
          rw [show (TruncGo model t thr (f :: rest) k).1 =
            (TruncGo model t thr rest (k + 1)).1 from by simp only [TruncGo, hms]] at herr
          exact herr
        have hout : (TruncGo model t thr (f :: rest) k).2 =
            TruncLoop t (scaling * thr) (SeriesFuel f) f 0 ::
              (TruncGo model t thr rest (k + 1)).2 := by
          simp only [TruncGo, hms]
        cases j with
        | zero =>
            refine ⟨scaling, by rw [Nat.add_zero]; exact hms, ?_⟩
            rw [hout, List.getD_cons_zero]
            have hf := hall f (List.mem_cons_self f rest)
            have hbound := TruncLoop_removed_bound t (scaling * thr) (SeriesFuel f) f 0
              hf.1 (fun s hs => le_of_eq (hf.2 s hs)) 
              (mul_nonneg (ModelTypeScaling_nonneg model k scaling hms) hthr)
            rw [RemovedAmpSum_eq_zero t f.series 0
              (fun s hs => le_of_eq (hf.2 s hs).symm)] at hbound
            linarith
        | succ j =>
            have hj' : j < rest.length := by simpa using hj
            obtain ⟨scal, hscal, hb⟩ := ih (k + 1)
              (fun g hg => hall g (List.mem_cons_of_mem f hg)) herr2 j hj'
            refine ⟨scal, ?_, ?_⟩
            · rw [show k + (j + 1) = k + 1 + j from by omega]
              exact hscal
            · rw [hout, List.getD_cons_succ]
              exact hb

theorem abs_Millennia (x : ℚ) : |Millennia x| = |x| / 365250 := by
  rw [Millennia, DAYS_PER_MILLENNIUM, abs_div, abs_of_pos (by norm_num : (0 : ℚ) < 365250)]

theorem trunc_time_eq (tt1 tt2 : ℚ) :
    (if |Millennia tt2| < |Millennia tt1| then |Millennia tt1| else |Millennia tt2|) =
      TruncSpecTime tt1 tt2 := by
  rw [TruncSpecTime, abs_Millennia, abs_Millennia]
  rcases lt_or_ge (|tt2| / 365250) (|tt1| / 365250) with h | h
  · rw [if_pos h, max_eq_left]
    exact le_of_lt ((div_lt_div_iff_of_pos_right (by norm_num : (0 : ℚ) < 365250)).mp h)
  · rw [if_neg (not_lt.mpr h), max_eq_right]
    exact (div_le_div_iff_of_pos_right (by norm_num : (0 : ℚ) < 365250)).mp h

/-- C4 (amended): for every model, interval, and **nonnegative** threshold,
when truncation succeeds, for each coordinate `k` the sum of the removed
increments `t^s * |amplitude|` (with `t = max(|tt1|,|tt2|)/365250` and one
increment per removed tail term of a series at power `s`) never exceeds
that coordinate's scaled budget, the scaling factor times the threshold:
a term is only removed when adding its increment keeps the accumulated
removed total within the budget.  (For a negative threshold the code still
succeeds while removing nothing, so the empty removed sum, `0`, exceeds
the negative budget; see the counterexample.) -/
theorem VsopTruncate_removed_within_budget (m : vsop_model_t) (tt1 tt2 thr : ℚ)
    (hthr : 0 ≤ thr) (hsucc : (VsopTruncate m tt1 tt2 thr).1 = 0)
    (k : Nat) (hk : k < m.ncoords) :
    ∃ scal, ModelTypeScaling m k = some scal ∧
      RemovedAmpSum (TruncSpecTime tt1 tt2)
        ((VsopTruncate m tt1 tt2 thr).2.formula.getD k default).series 0 ≤ scal * thr := by
  have hres : ∀ f ∈ (ResetCalc m).formula, f.series.length ≤ f.nseries_calc ∧
      ∀ s ∈ f.series, s.nterms_calc = s.term.length := by
    intro f hf
    rcases List.mem_map.mp hf with ⟨g, _, rfl⟩
    constructor
    · show (g.series.map ResetSeries).length ≤ g.series.length
      rw [List.length_map]
    · intro s hs
      rcases List.mem_map.mp hs with ⟨u, _, rfl⟩
      rfl
  have hlen : ((ResetCalc m).formula).length = m.ncoords := by
    show (m.formula.map ResetFormula).length = m.formula.length
    rw [List.length_map]
  have h := TruncGo_removed_bound (ResetCalc m)
    (if |Millennia tt2| < |Millennia tt1| then |Millennia tt1| else |Millennia tt2|)
    thr hthr (ResetCalc m).formula 0 hres hsucc k (by rw [hlen]; exact hk)
  rw [Nat.zero_add] at h
  rw [← trunc_time_eq tt1 tt2]
  exact h

/-- Counterexample to C4 as frozen: with a negative threshold the
truncation still succeeds, and the (empty) removed sum `0` strictly
exceeds the scaled budget `1 * (-1)`. -/
theorem VsopTruncate_budget_counterexample :
    (VsopTruncate ⟨.VSOP_HELIO_SPHER_J2000, .VSOP_EARTH,
        [⟨[⟨[⟨1, 0, 0⟩], 1⟩], 1⟩]⟩ 0 0 (-1)).1 = 0 ∧
    ModelTypeScaling ⟨.VSOP_HELIO_SPHER_J2000, .VSOP_EARTH,
        [⟨[⟨[⟨1, 0, 0⟩], 1⟩], 1⟩]⟩ 0 = some 1 ∧
    ¬ (RemovedAmpSum (TruncSpecTime 0 0)
        ((VsopTruncate ⟨.VSOP_HELIO_SPHER_J2000, .VSOP_EARTH,
          [⟨[⟨[⟨1, 0, 0⟩], 1⟩], 1⟩]⟩ 0 0 (-1)).2.formula.getD 0 default).series 0 ≤
        1 * (-1)) := by
  refine ⟨?_, ?_, ?_⟩
  · norm_num [VsopTruncate, ResetCalc, ResetFormula, ResetSeries, TruncGo, TruncLoop,
      ModelTypeScaling, SeriesFuel, FindBest, Power, Millennia, DAYS_PER_MILLENNIUM,
      DecrementAt]
  · norm_num [ModelTypeScaling]
  · norm_num [VsopTruncate, ResetCalc, ResetFormula, ResetSeries, TruncGo, TruncLoop,
      ModelTypeScaling, SeriesFuel, FindBest, Power, Millennia, DAYS_PER_MILLENNIUM,
      DecrementAt, RemovedAmpSum, TruncSpecTime]

/-- Witness for the amended C4 at a concrete model and nonnegative
threshold. -/
theorem VsopTruncate_removed_within_budget_witness :
    (0 : ℚ) ≤ 0 ∧
    (VsopTruncate ⟨.VSOP_HELIO_SPHER_J2000, .VSOP_EARTH,
        [⟨[⟨[⟨1, 0, 0⟩], 1⟩], 1⟩]⟩ 0 0 0).1 = 0 ∧
    0 < (vsop_model_t.ncoords ⟨.VSOP_HELIO_SPHER_J2000, .VSOP_EARTH,
        [⟨[⟨[⟨1, 0, 0⟩], 1⟩], 1⟩]⟩) ∧
    ∃ scal, ModelTypeScaling ⟨.VSOP_HELIO_SPHER_J2000, .VSOP_EARTH,
        [⟨[⟨[⟨1, 0, 0⟩], 1⟩], 1⟩]⟩ 0 = some scal ∧
      RemovedAmpSum (TruncSpecTime 0 0)
        ((VsopTruncate ⟨.VSOP_HELIO_SPHER_J2000, .VSOP_EARTH,
          [⟨[⟨[⟨1, 0, 0⟩], 1⟩], 1⟩]⟩ 0 0 0).2.formula.getD 0 default).series 0 ≤
        scal * 0 :=
  ⟨le_rfl,
   by norm_num [VsopTruncate, ResetCalc, ResetFormula, ResetSeries, TruncGo, TruncLoop,
     ModelTypeScaling, SeriesFuel, FindBest, Power, Millennia, DAYS_PER_MILLENNIUM,
     DecrementAt],
   by norm_num [vsop_model_t.ncoords],
   VsopTruncate_removed_within_budget ⟨.VSOP_HELIO_SPHER_J2000, .VSOP_EARTH,
     [⟨[⟨[⟨1, 0, 0⟩], 1⟩], 1⟩]⟩ 0 0 0 le_rfl
     (by norm_num [VsopTruncate, ResetCalc, ResetFormula, ResetSeries, TruncGo, TruncLoop,
       ModelTypeScaling, SeriesFuel, FindBest, Power, Millennia, DAYS_PER_MILLENNIUM,
       DecrementAt])
     0
     (by norm_num [vsop_model_t.ncoords])⟩

/-! ### Claim C10: the Sun is loadable but not truncatable -/

/-- Body name table of the loader (`BodyTable`): the ten 8-character names
the loader accepts, in source order. -/
def BodyTable : List (String × vsop_body_t) :=
  [("MERCURY ", .VSOP_MERCURY),
   ("VENUS   ", .VSOP_VENUS),
   ("EARTH   ", .VSOP_EARTH),
   ("EMB     ", .VSOP_EMB),
   ("MARS    ", .VSOP_MARS),
   ("JUPITER ", .VSOP_JUPITER),
   ("SATURN  ", .VSOP_SATURN),
   ("URANUS  ", .VSOP_URANUS),
   ("NEPTUNE ", .VSOP_NEPTUNE),
   ("SUN     ", .VSOP_SUN)]

/-- Table scan of `VsopLoadModel`: first matching name wins, no match gives
the invalid-body sentinel (which makes the loader fail). -/
def LookupBody : List (String × vsop_body_t) → String → vsop_body_t
  | [], _ => .VSOP_INVALID_BODY
  | entry :: rest, name => if entry.1 = name then entry.2 else LookupBody rest name

/-- C10: for a model whose body is the Sun, every distance-scaled
coordinate makes `ModelTypeScaling` fail, because the body-distance table
has no entry for the Sun — even though `SUN` is one of the ten names the
loader accepts.  Consequently `VsopTruncate` fails (error 1) for the
rectangular versions as soon as there is any coordinate, and for the
spherical versions as soon as the radius coordinate `k = 2` is reached. -/
theorem sun_model_truncation_fails (m : vsop_model_t) (hb : m.body = .VSOP_SUN) :
    LookupBody BodyTable "SUN     " = .VSOP_SUN ∧
    BodyDistanceScaling .VSOP_SUN = none ∧
    ((m.version = .VSOP_HELIO_RECT_J2000 ∨ m.version = .VSOP_HELIO_RECT_DATE) →
      (∀ k, ModelTypeScaling m k = none) ∧
      (0 < m.ncoords → ∀ tt1 tt2 thr, (VsopTruncate m tt1 tt2 thr).1 = 1)) ∧
    ((m.version = .VSOP_HELIO_SPHER_J2000 ∨ m.version = .VSOP_HELIO_SPHER_DATE) →
      (∀ k, 2 ≤ k → ModelTypeScaling m k = none) ∧
      (3 ≤ m.ncoords → ∀ tt1 tt2 thr, (VsopTruncate m tt1 tt2 thr).1 = 1)) := by
  have hmts_eq : ∀ k, ModelTypeScaling (ResetCalc m) k = ModelTypeScaling m k := fun _ => rfl
  have hlen : (ResetCalc m).formula.length = m.ncoords := by
    show (m.formula.map ResetFormula).length = m.formula.length
    rw [List.length_map]
  refine ⟨by decide, rfl, ?_, ?_⟩
  · intro hv
    have hmts : ∀ k, ModelTypeScaling m k = none := by
      intro k
      rcases hv with hv | hv <;> simp [ModelTypeScaling, hv, hb, BodyDistanceScaling]
    refine ⟨hmts, ?_⟩
    intro hnc tt1 tt2 thr
    have hne : (ResetCalc m).formula ≠ [] := by
      intro hnil
      rw [hnil] at hlen
      simp at hlen
      omega
    obtain ⟨f, rest, hfr⟩ := List.exists_cons_of_ne_nil hne
    show (TruncGo (ResetCalc m) _ thr (ResetCalc m).formula 0).1 = 1
    rw [hfr]
    simp only [TruncGo, hmts_eq 0, hmts 0]
  · intro hv
    have hmts2 : ∀ k, 2 ≤ k → ModelTypeScaling m k = none := by
      intro k hk
      rcases hv with hv | hv <;>
        simp [ModelTypeScaling, hv, hb, BodyDistanceScaling,
          show ¬(k = 0 ∨ k = 1) from by omega]
    refine ⟨hmts2, ?_⟩
    intro hnc tt1 tt2 thr
    have hm0 : ModelTypeScaling m 0 = some 1 := by
      rcases hv with hv | hv <;> simp [ModelTypeScaling, hv]
    have hm1 : ModelTypeScaling m 1 = some 1 := by
      rcases hv with hv | hv <;> simp [ModelTypeScaling, hv]
    have h3 : 3 ≤ (ResetCalc m).formula.length := by omega
    obtain ⟨f0, l0, hf0⟩ : ∃ f0 l0, (ResetCalc m).formula = f0 :: l0 := by
      rcases hl : (ResetCalc m).formula with _ | ⟨f0, l0⟩
      · rw [hl] at h3; simp at h3
      · exact ⟨f0, l0, rfl⟩
    obtain ⟨f1, l1, hf1⟩ : ∃ f1 l1, l0 = f1 :: l1 := by
      rcases hl : l0 with _ | ⟨f1, l1⟩
      · rw [hf0, hl] at h3; simp at h3
      · exact ⟨f1, l1, rfl⟩
    obtain ⟨f2, l2, hf2⟩ : ∃ f2 l2, l1 = f2 :: l2 := by
      rcases hl : l1 with _ | ⟨f2, l2⟩
      · rw [hf0, hf1, hl] at h3; simp at h3
      · exact ⟨f2, l2, rfl⟩
    show (TruncGo (ResetCalc m) _ thr (ResetCalc m).formula 0).1 = 1
    rw [hf0, hf1, hf2]
    simp only [TruncGo, hmts_eq, hm0, hm1, hmts2 2 le_rfl]

/-- Witness for C10: concrete Sun models of rectangular and spherical
versions on which truncation fails. -/
theorem sun_model_truncation_fails_witness :
    (VsopTruncate ⟨.VSOP_HELIO_RECT_J2000, .VSOP_SUN, [⟨[], 0⟩]⟩ 0 0 0).1 = 1 ∧
    (VsopTruncate ⟨.VSOP_HELIO_SPHER_J2000, .VSOP_SUN,
      [⟨[], 0⟩, ⟨[], 0⟩, ⟨[], 0⟩]⟩ 0 0 0).1 = 1 :=
  ⟨((sun_model_truncation_fails ⟨.VSOP_HELIO_RECT_J2000, .VSOP_SUN, [⟨[], 0⟩]⟩ rfl).2.2.1
      (Or.inl rfl)).2 (by decide) 0 0 0,
   ((sun_model_truncation_fails ⟨.VSOP_HELIO_SPHER_J2000, .VSOP_SUN,
      [⟨[], 0⟩, ⟨[], 0⟩, ⟨[], 0⟩]⟩ rfl).2.2.2
      (Or.inl rfl)).2 (by decide) 0 0 0⟩

/-! ### Standard-format loader (`VsopLoadModel`)

The fixed-column text file is embedded at line granularity: a header
record carries the version digit (column 17, validated `0`..`5`), the
8-character body name (column 22), the power digit (column 59, validated
`0`..`9`) and the declared term count; a data record carries the three
coefficients parsed at column 79.  A header-shaped line in data position
fails the data parse (real headers are shorter than the 131-column
minimum), and a data-shaped line in header position fails the header
validation, which the constructor mismatch models. -/
inductive std_line where
  | header (version : Nat) (body : String) (power : Nat) (nterms : Nat)
  | data (A B C : ℚ)

/-- Modelled from the spec: the digit-to-version mapping of the missing
header's enumeration, following the VSOP87 file convention (0 = elliptic
main series, 1 = A rectangular J2000, 2 = B spherical J2000,
3 = C rectangular of-date, 4 = D spherical of-date, 5 = E barycentric);
the loader stores `line[17] - '0'` directly into `model->version`. -/
def VersionFromDigit : Nat → vsop_version_t
  | 0 => .VSOP_ELLIPTIC_J2000
  | 1 => .VSOP_HELIO_RECT_J2000
  | 2 => .VSOP_HELIO_SPHER_J2000
  | 3 => .VSOP_HELIO_RECT_DATE
  | 4 => .VSOP_HELIO_SPHER_DATE
  | 5 => .VSOP_BARY_RECT_J2000
  | _ => .VSOP_INVALID_VERSION

/-- Main loop of `VsopLoadModel` over the lines of the file.  The model
under construction is carried as `coords`, the coordinate formulas in
reverse order, each as its list of series in reverse order (the series
currently being filled is the head of the head).  A series is allocated
(`calloc`) as `List.replicate nt default` and data records store terms by
index (`series->term[termcount] = ...`, i.e. `List.set`).  `none` is the
`goto fail` of the C code. -/
def VsopLoadLoop : List std_line → vsop_version_t → vsop_body_t →
    List (List vsop_series_t) → Nat → Nat → Nat →
    Option (vsop_version_t × vsop_body_t × List (List vsop_series_t) × Nat × Nat)
  | [], version, body, coords, nterms, termcount, _ =>
      some (version, body, coords, nterms, termcount)
  | line :: rest, version, body, coords, nterms, termcount, lnum =>
      if termcount = nterms then
        match line with
        | .data _ _ _ => none
        | .header v name power nt =>
            if 5 < v ∨ 9 < power ∨ nt < 1 then none
            else
              let version := if lnum = 0 then VersionFromDigit v else version
              let body := if lnum = 0 then LookupBody BodyTable name else body
              if lnum = 0 ∧ body = .VSOP_INVALID_BODY then none
              else
                match (if power = 0 then
                        (if coords.length = VSOP_MAX_COORDS then none
                         else some (([] : List vsop_series_t) :: coords))
                      else some coords) with
                | none => none
                | some coords2 =>
                    match coords2 with
                    | [] => none
                    | cur :: done =>
                        if cur.length = VSOP_MAX_SERIES then none
                        else if cur.length ≠ power then none
                        else
                          VsopLoadLoop rest version body
                            ((⟨List.replicate nt default, nt⟩ :: cur) :: done)
                            nt 0 (lnum + 1)
      else
        match line with
        | .header _ _ _ _ => none
        | .data A B C =>
            match coords with
            | (curS :: curRest) :: done =>
                VsopLoadLoop rest version body
                  ((⟨curS.term.set termcount ⟨A, B, C⟩, curS.nterms_calc⟩ :: curRest) :: done)
                  nterms (termcount + 1) (lnum + 1)
            | _ => none

/-- Final assembly of the loaded model from the reversed accumulators:
every `calc` count equals its `total` count, as in the C loader. -/
def AssembleModel (version : vsop_version_t) (body : vsop_body_t)
    (coords : List (List vsop_series_t)) : vsop_model_t :=
  ⟨version, body, coords.reverse.map (fun ss => ⟨ss.reverse, ss.length⟩)⟩

/-- Standard-format loader `VsopLoadModel`: returns the C error code
paired with the model; every failure path releases the model to the null
state (`VsopFreeModel`) before returning. -/
def VsopLoadModel (input : List std_line) : Nat × vsop_model_t :=
  match VsopLoadLoop input .VSOP_INVALID_VERSION .VSOP_INVALID_BODY [] 0 0 0 with
  | none => (1, VsopFreeModel VsopInit)
  | some (version, body, coords, nterms, termcount) =>
      if version = .VSOP_INVALID_VERSION then (1, VsopFreeModel VsopInit)
      else
        let model := AssembleModel version body coords
        if model.ncoords ≠ (if version = .VSOP_ELLIPTIC_J2000 then 6 else 3) then
          (1, VsopFreeModel model)
        else if termcount ≠ nterms then (1, VsopFreeModel model)
        else (0, model)

/-! ### Compact truncated format (`VsopWriteTrunc` / `VsopReadTrunc`) -/

/-- One line of the compact truncated format: the top header, a coordinate
header, a series header, or a term line (with its redundant index). -/
inductive trunc_line where
  | header (version : vsop_version_t) (body : vsop_body_t) (ncoords : Nat)
  | coord (k : Nat) (nseries : Nat)
  | series (s : Nat) (nterms : Nat)
  | term (i : Nat) (amplitude phase frequency : ℚ)

/-- Fixed 11-fractional-digit rounding performed by the writer's
`%18.11lf`/`%14.11lf`/`%20.11lf` formats. -/
def Round11 (x : ℚ) : ℚ := (round (x * 10 ^ 11) : ℤ) / 10 ^ 11

/-- Term lines of `VsopWriteTrunc` for the active terms of one series,
indexed from `i`. -/
def WriteTermLines : List vsop_term_t → Nat → List trunc_line
  | [], _ => []
  | tm :: rest, i =>
      .term i (Round11 tm.amplitude) (Round11 tm.phase) (Round11 tm.frequency) ::
        WriteTermLines rest (i + 1)

/-- Series blocks of `VsopWriteTrunc` for the active series of one
coordinate, indexed from `s`. -/
def WriteSeriesLines : List vsop_series_t → Nat → List trunc_line
  | [], _ => []
  | series :: rest, s =>
      .series s series.nterms_calc ::
        (WriteTermLines (series.term.take series.nterms_calc) 0 ++
          WriteSeriesLines rest (s + 1))

/-- Coordinate blocks of `VsopWriteTrunc`, indexed from `k`. -/
def WriteCoordLines : List vsop_formula_t → Nat → List trunc_line
  | [], _ => []
  | formula :: rest, k =>
      .coord k formula.nseries_calc ::
        (WriteSeriesLines (formula.series.take formula.nseries_calc) 0 ++
          WriteCoordLines rest (k + 1))

/-- Compact-format writer `VsopWriteTrunc`: emits the header line followed
by the nested coordinate/series/term lines of the active data. -/
def VsopWriteTrunc (model : vsop_model_t) : List trunc_line :=
  .header model.version model.body model.ncoords :: WriteCoordLines model.formula 0

/-- Term reader of `VsopReadTrunc`: reads exactly `n` term lines whose
indices must match `i, i+1, ...`; returns the terms and remaining lines. -/
def ReadTermLines : Nat → Nat → List trunc_line → Option (List vsop_term_t × List trunc_line)
  | 0, _, lines => some ([], lines)
  | n + 1, i, .term check_i a p fr :: rest =>
      if check_i = i then
        match ReadTermLines n (i + 1) rest with
        | some (ts, l) => some (⟨a, p, fr⟩ :: ts, l)
        | none => none
      else none
  | _ + 1, _, _ => none

/-- Series reader of `VsopReadTrunc`: reads exactly `n` series blocks; the
declared term count sets both `nterms_total` (storage) and `nterms_calc`. -/
def ReadSeriesLines : Nat → Nat → List trunc_line → Option (List vsop_series_t × List trunc_line)
  | 0, _, lines => some ([], lines)
  | n + 1, s, .series check_s nterms :: rest =>
      if check_s = s then
        match ReadTermLines nterms 0 rest with
        | some (ts, l1) =>
            match ReadSeriesLines n (s + 1) l1 with
            | some (ss, l2) => some (⟨ts, nterms⟩ :: ss, l2)
            | none => none
        | none => none
      else none
  | _ + 1, _, _ => none

/-- Coordinate reader of `VsopReadTrunc`: reads exactly `n` coordinate
blocks; the declared series count must be below `VSOP_MAX_SERIES` and sets
both `nseries_total` and `nseries_calc`. -/
def ReadCoordLines : Nat → Nat → List trunc_line → Option (List vsop_formula_t × List trunc_line)
  | 0, _, lines => some ([], lines)
  | n + 1, k, .coord check_k nseries :: rest =>
      if check_k = k ∧ nseries < VSOP_MAX_SERIES then
        match ReadSeriesLines nseries 0 rest with
        | some (ss, l1) =>
            match ReadCoordLines n (k + 1) l1 with
            | some (fs, l2) => some (⟨ss, nseries⟩ :: fs, l2)
            | none => none
        | none => none
      else none
  | _ + 1, _, _ => none

/-- Compact-format reader `VsopReadTrunc`: parses the header line (the
coordinate count must lie in `[VSOP_MIN_COORDS, VSOP_MAX_COORDS]`) and the
nested blocks; on any failure the model is released to the null state and
a nonzero error code is returned.  Trailing lines are ignored, as in C. -/
def VsopReadTrunc (input : List trunc_line) : Nat × vsop_model_t :=
  match input with
  | .header version body ncoords :: rest =>
      if VSOP_MIN_COORDS ≤ ncoords ∧ ncoords ≤ VSOP_MAX_COORDS then
        match ReadCoordLines ncoords 0 rest with
        | some (fs, _) => (0, ⟨version, body, fs⟩)
        | none => (1, VsopFreeModel VsopInit)
      else (1, VsopFreeModel VsopInit)
  | _ => (1, VsopFreeModel VsopInit)

/-! ### Claim C9: every load failure leaves the null model -/

theorem VsopLoadModel_error_cases (input : List std_line) :
    (VsopLoadModel input).1 = 0 ∨ VsopLoadModel input = (1, VsopInit) := by
  rcases hres : VsopLoadLoop input .VSOP_INVALID_VERSION .VSOP_INVALID_BODY [] 0 0 0 with
    _ | ⟨v, b, c, nt, tc⟩
  · right
    simp [VsopLoadModel, hres, VsopFreeModel]
  · simp only [VsopLoadModel, hres]
    by_cases h1 : v = .VSOP_INVALID_VERSION
    · rw [if_pos h1]
      right; rfl
    · rw [if_neg h1]
      by_cases h2 : (AssembleModel v b c).ncoords ≠
          (if v = .VSOP_ELLIPTIC_J2000 then 6 else 3)
      · rw [if_pos h2]
        right; rfl
      · rw [if_neg h2]
        by_cases h3 : tc ≠ nt
        · rw [if_pos h3]
          right; rfl
        · rw [if_neg h3]
          left; rfl

theorem VsopReadTrunc_error_cases (input : List trunc_line) :
    (VsopReadTrunc input).1 = 0 ∨ VsopReadTrunc input = (1, VsopInit) := by
  rcases input with _ | ⟨l, rest⟩
  · right; rfl
  · cases l with
    | header v b nc =>
        by_cases hcond : VSOP_MIN_COORDS ≤ nc ∧ nc ≤ VSOP_MAX_COORDS
        · rcases hrc : ReadCoordLines nc 0 rest with _ | ⟨fs, l2⟩
          · right
            simp [VsopReadTrunc, hcond, hrc, VsopFreeModel]
          · left
            simp [VsopReadTrunc, hcond, hrc]
        · right
          simp [VsopReadTrunc, hcond, VsopFreeModel]
    | coord k n => right; rfl
    | series s n => right; rfl
    | term i a p fr => right; rfl

/-- C9: whenever the standard-format loader or the compact-format reader
fails (nonzero error code), the returned model is the explicit null state:
invalid version and body sentinels, zero coordinate count, no term
storage.  A caller never observes a half-populated model. -/
theorem load_failure_leaves_null_model (input : List std_line) (input2 : List trunc_line) :
    ((VsopLoadModel input).1 ≠ 0 → (VsopLoadModel input).2 = VsopInit) ∧
    ((VsopReadTrunc input2).1 ≠ 0 → (VsopReadTrunc input2).2 = VsopInit) ∧
    VsopInit.version = .VSOP_INVALID_VERSION ∧
    VsopInit.body = .VSOP_INVALID_BODY ∧
    VsopInit.ncoords = 0 := by
  refine ⟨?_, ?_, rfl, rfl, rfl⟩
  · intro h
    rcases VsopLoadModel_error_cases input with h0 | heq
    · exact absurd h0 h
    · rw [heq]
  · intro h
    rcases VsopReadTrunc_error_cases input2 with h0 | heq
    · exact absurd h0 h
    · rw [heq]

/-- Witness for C9: the empty file fails in both loaders and leaves the
null model. -/
theorem load_failure_leaves_null_model_witness :
    ((VsopLoadModel []).1 ≠ 0 ∧ (VsopLoadModel []).2 = VsopInit) ∧
    ((VsopReadTrunc []).1 ≠ 0 ∧ (VsopReadTrunc []).2 = VsopInit) :=
  ⟨⟨by decide, (load_failure_leaves_null_model [] []).1 (by decide)⟩,
   ⟨by decide, (load_failure_leaves_null_model [] []).2.1 (by decide)⟩⟩

/-! ### Claim C8: write-then-read round trip at the writer's precision -/

/-- Coefficients of one term after the writer's fixed-precision rounding. -/
def RoundTerm (tm : vsop_term_t) : vsop_term_t :=
  ⟨Round11 tm.amplitude, Round11 tm.phase, Round11 tm.frequency⟩

/-- One series after a round trip: same term count, rounded coefficients. -/
def RoundSeries (s : vsop_series_t) : vsop_series_t :=
  ⟨s.term.map RoundTerm, s.nterms_calc⟩

/-- One formula after a round trip: same series count, rounded series. -/
def RoundFormula (f : vsop_formula_t) : vsop_formula_t :=
  ⟨f.series.map RoundSeries, f.nseries_calc⟩

/-- A model after a round trip: identical version, body, `ncoords`, series
and term counts; every coefficient rounded at 11 fractional digits. -/
def RoundModel (m : vsop_model_t) : vsop_model_t :=
  ⟨m.version, m.body, m.formula.map RoundFormula⟩

theorem ReadWrite_terms (ts : List vsop_term_t) :
    ∀ (i : Nat) (rest : List trunc_line),
      ReadTermLines ts.length i (WriteTermLines ts i ++ rest) =
        some (ts.map RoundTerm, rest) := by
  induction ts with
  | nil => intro i rest; rfl
  | cons tm ts ih =>
      intro i rest
      show ReadTermLines (ts.length + 1) i
        (.term i (Round11 tm.amplitude) (Round11 tm.phase) (Round11 tm.frequency) ::
          (WriteTermLines ts (i + 1) ++ rest)) = _
      rw [ReadTermLines, if_pos rfl, ih (i + 1) rest]
      rfl

theorem ReadWrite_series (ss : List vsop_series_t)
    (h : ∀ s ∈ ss, s.nterms_calc = s.term.length) :
    ∀ (sIdx : Nat) (rest : List trunc_line),
      ReadSeriesLines ss.length sIdx (WriteSeriesLines ss sIdx ++ rest) =
        some (ss.map RoundSeries, rest) := by
  induction ss with
  | nil => intro sIdx rest; rfl
  | cons s ss ih =>
      intro sIdx rest
      have hs : s.nterms_calc = s.term.length := h s (List.mem_cons_self s ss)
      have htake : s.term.take s.nterms_calc = s.term :=
        List.take_of_length_le (le_of_eq hs.symm)
      have hterms : ReadTermLines s.nterms_calc 0
          (WriteTermLines s.term 0 ++ (WriteSeriesLines ss (sIdx + 1) ++ rest)) =
          some (s.term.map RoundTerm, WriteSeriesLines ss (sIdx + 1) ++ rest) := by
        rw [hs]
        exact ReadWrite_terms s.term 0 (WriteSeriesLines ss (sIdx + 1) ++ rest)
      show ReadSeriesLines (ss.length + 1) sIdx
        (.series sIdx s.nterms_calc ::
          ((WriteTermLines (s.term.take s.nterms_calc) 0 ++
            WriteSeriesLines ss (sIdx + 1)) ++ rest)) = _
      rw [List.append_assoc, htake, ReadSeriesLines, if_pos rfl, hterms]
      dsimp only
      rw [ih (fun u hu => h u (List.mem_cons_of_mem s hu)) (sIdx + 1) rest]
      rfl

theorem ReadWrite_coords (fs : List vsop_formula_t)
    (h : ∀ f ∈ fs, f.nseries_calc = f.series.length ∧ f.series.length < VSOP_MAX_SERIES ∧
      ∀ s ∈ f.series, s.nterms_calc = s.term.length) :
    ∀ (k : Nat) (rest : List trunc_line),
      ReadCoordLines fs.length k (WriteCoordLines fs k ++ rest) =
        some (fs.map RoundFormula, rest) := by
  induction fs with
  | nil => intro k rest; rfl
  | cons f fs ih =>
      intro k rest
      obtain ⟨hc, hmax, hterms⟩ := h f (List.mem_cons_self f fs)
      have htake : f.series.take f.nseries_calc = f.series :=
        List.take_of_length_le (le_of_eq hc.symm)
      have hseries : ReadSeriesLines f.nseries_calc 0
          (WriteSeriesLines f.series 0 ++ (WriteCoordLines fs (k + 1) ++ rest)) =
          some (f.series.map RoundSeries, WriteCoordLines fs (k + 1) ++ rest) := by
        rw [hc]
        exact ReadWrite_series f.series hterms 0 (WriteCoordLines fs (k + 1) ++ rest)
      show ReadCoordLines (fs.length + 1) k
        (.coord k f.nseries_calc ::
          ((WriteSeriesLines (f.series.take f.nseries_calc) 0 ++
            WriteCoordLines fs (k + 1)) ++ rest)) = _
      rw [List.append_assoc, htake, ReadCoordLines,
        if_pos ⟨rfl, by rw [hc]; exact hmax⟩, hseries]
      dsimp only
      rw [ih (fun u hu => h u (List.mem_cons_of_mem f hu)) (k + 1) rest]
      rfl

theorem ReadWrite_model (m : vsop_model_t)
    (hnc : VSOP_MIN_COORDS ≤ m.ncoords ∧ m.ncoords ≤ VSOP_MAX_COORDS)
    (h : ∀ f ∈ m.formula, f.nseries_calc = f.series.length ∧
      f.series.length < VSOP_MAX_SERIES ∧
      ∀ s ∈ f.series, s.nterms_calc = s.term.length) :
    VsopReadTrunc (VsopWriteTrunc m) = (0, RoundModel m) := by
  have hcoords := ReadWrite_coords m.formula h 0 []
  rw [List.append_nil] at hcoords
  show VsopReadTrunc (.header m.version m.body m.ncoords :: WriteCoordLines m.formula 0) =
    (0, RoundModel m)
  rw [VsopReadTrunc, if_pos hnc,
    show (vsop_model_t.ncoords m) = m.formula.length from rfl, hcoords]
  rfl

/-- Invariant maintained for each (reversed) coordinate accumulator while
loading: at most 10 series (powers are single digits `0..9`), and every
series was allocated with exactly its declared term count. -/
def CoordInv (c : List vsop_series_t) : Prop :=
  c.length ≤ 10 ∧ ∀ s ∈ c, s.nterms_calc = s.term.length

theorem VsopLoadLoop_inv :
    ∀ (input : List std_line) (version : vsop_version_t) (body : vsop_body_t)
      (coords : List (List vsop_series_t)) (nterms termcount lnum : Nat)
      (v2 : vsop_version_t) (b2 : vsop_body_t)
      (c2 : List (List vsop_series_t)) (n2 t2 : Nat),
      VsopLoadLoop input version body coords nterms termcount lnum =
        some (v2, b2, c2, n2, t2) →
      (∀ c ∈ coords, CoordInv c) →
      ∀ c ∈ c2, CoordInv c := by
  intro input
  induction input with
  | nil =>
      intro version body coords nterms termcount lnum v2 b2 c2 n2 t2 h hinv
      rw [VsopLoadLoop] at h
      simp only [Option.some.injEq, Prod.mk.injEq] at h
      obtain ⟨-, -, rfl, -, -⟩ := h
      exact hinv
  | cons line rest ih =>
      intro version body coords nterms termcount lnum v2 b2 c2 n2 t2 h hinv
      rw [VsopLoadLoop.eq_def] at h
      dsimp only at h
      by_cases hq : termcount = nterms
      · rw [if_pos hq] at h
        cases line with
        | data A B C => simp at h
        | header v name power nt =>
            dsimp only at h
            by_cases hchk : 5 < v ∨ 9 < power ∨ nt < 1
            · rw [if_pos hchk] at h
              simp at h
            · rw [if_neg hchk] at h
              push_neg at hchk
              obtain ⟨-, hpow, -⟩ := hchk
              by_cases hbad : lnum = 0 ∧
                  (if lnum = 0 then LookupBody BodyTable name else body) =
                    .VSOP_INVALID_BODY
              · rw [if_pos hbad] at h
                simp at h
              · rw [if_neg hbad] at h
                by_cases hp : power = 0
                · subst hp
                  rw [if_pos rfl] at h
                  by_cases hcap : coords.length = VSOP_MAX_COORDS
                  · rw [if_pos hcap] at h
                    simp at h
                  · rw [if_neg hcap] at h
                    dsimp only at h
                    rw [if_neg (by decide : ¬(List.length ([] : List vsop_series_t) =
                      VSOP_MAX_SERIES)), if_neg (by decide :
                        ¬(List.length ([] : List vsop_series_t) ≠ 0))] at h
                    refine ih _ _ _ _ _ _ _ _ _ _ _ h ?_
                    intro c hc
                    rcases List.mem_cons.mp hc with rfl | hc
                    · refine ⟨by simp, ?_⟩
                      intro s hs
                      rcases List.mem_cons.mp hs with rfl | hs
                      · show nt = (List.replicate nt default).length
                        rw [List.length_replicate]
                      · simp at hs
                    · exact hinv c hc
                · rw [if_neg hp] at h
                  cases coords with
                  | nil => simp at h
                  | cons cur done =>
                      dsimp only at h
                      by_cases h1 : cur.length = VSOP_MAX_SERIES
                      · rw [if_pos h1] at h
                        simp at h
                      · rw [if_neg h1] at h
                        by_cases h2 : cur.length ≠ power
                        · rw [if_pos h2] at h
                          simp at h
                        · rw [if_neg h2] at h
                          push_neg at h2
                          refine ih _ _ _ _ _ _ _ _ _ _ _ h ?_
                          intro c hc
                          rcases List.mem_cons.mp hc with rfl | hc
                          · obtain ⟨hlen, hmem⟩ := hinv cur (List.mem_cons_self cur done)
                            refine ⟨?_, ?_⟩
                            · show cur.length + 1 ≤ 10
                              omega
                            · intro s hs
                              rcases List.mem_cons.mp hs with rfl | hs
                              · show nt = (List.replicate nt default).length
                                rw [List.length_replicate]
                              · exact hmem s hs
                          · exact hinv c (List.mem_cons_of_mem cur hc)
      · rw [if_neg hq] at h
        cases line with
        | header v name power nt => simp at h
        | data A B C =>
            dsimp only at h
            cases coords with
            | nil => simp at h
            | cons c0 done =>
                cases c0 with
                | nil => simp at h
                | cons curS curRest =>
                    dsimp only at h
                    refine ih _ _ _ _ _ _ _ _ _ _ _ h ?_
                    intro c hc
                    rcases List.mem_cons.mp hc with rfl | hc
                    · obtain ⟨hlen, hmem⟩ :=
                        hinv (curS :: curRest) (List.mem_cons_self _ done)
                      refine ⟨by simpa using hlen, ?_⟩
                      intro s hs
                      rcases List.mem_cons.mp hs with rfl | hs
                      · show curS.nterms_calc = (curS.term.set termcount ⟨A, B, C⟩).length
                        rw [List.length_set]
                        exact hmem curS (List.mem_cons_self curS curRest)
                      · exact hmem s (List.mem_cons_of_mem curS hs)
                    · exact hinv c (List.mem_cons_of_mem _ hc)

theorem VsopLoadModel_success (input : List std_line)
    (hok : (VsopLoadModel input).1 = 0) :
    ∃ v b c nt tc,
      VsopLoadLoop input .VSOP_INVALID_VERSION .VSOP_INVALID_BODY [] 0 0 0 =
        some (v, b, c, nt, tc) ∧
      (VsopLoadModel input).2 = AssembleModel v b c ∧
      ((AssembleModel v b c).ncoords = 3 ∨ (AssembleModel v b c).ncoords = 6) := by
  rcases hres : VsopLoadLoop input .VSOP_INVALID_VERSION .VSOP_INVALID_BODY [] 0 0 0 with
    _ | ⟨v, b, c, nt, tc⟩
  · rw [show (VsopLoadModel input).1 = 1 from by simp [VsopLoadModel, hres]] at hok
    exact absurd hok one_ne_zero
  · simp only [VsopLoadModel, hres] at hok ⊢
    by_cases h1 : v = .VSOP_INVALID_VERSION
    · rw [if_pos h1] at hok
      exact absurd hok one_ne_zero
    · rw [if_neg h1] at hok ⊢
      by_cases h2 : (AssembleModel v b c).ncoords ≠
          (if v = .VSOP_ELLIPTIC_J2000 then 6 else 3)
      · rw [if_pos h2] at hok
        exact absurd hok one_ne_zero
      · rw [if_neg h2] at hok ⊢
        by_cases h3 : tc ≠ nt
        · rw [if_pos h3] at hok
          exact absurd hok one_ne_zero
        · rw [if_neg h3] at hok ⊢
          push_neg at h2
          refine ⟨v, b, c, nt, tc, rfl, rfl, ?_⟩
          by_cases hv : v = .VSOP_ELLIPTIC_J2000
          · right
            rw [h2, if_pos hv]
          · left
            rw [h2, if_neg hv]

/-- C8: a model successfully loaded from the standard VSOP87 format (hence
untruncated: every `calc` count equals its `total` count), written with
the compact writer and read back with the compact reader, yields error
code 0 and exactly `RoundModel` of the loaded model: identical `ncoords`,
identical active series counts per coordinate, identical active term
counts per series, and coefficients equal to the originals rounded at the
writer's fixed 11-fractional-digit precision. -/
theorem VsopLoad_write_read_roundtrip (input : List std_line)
    (hok : (VsopLoadModel input).1 = 0) :
    VsopReadTrunc (VsopWriteTrunc (VsopLoadModel input).2) =
      (0, RoundModel (VsopLoadModel input).2) := by
  obtain ⟨v, b, c, nt, tc, hres, hmodel, hnc⟩ := VsopLoadModel_success input hok
  rw [hmodel]
  have hinv := VsopLoadLoop_inv input _ _ _ _ _ _ _ _ _ _ _ hres
    (by intro c hc; simp at hc)
  apply ReadWrite_model
  · rcases hnc with h | h <;> rw [h] <;>
      exact ⟨by norm_num [VSOP_MIN_COORDS], by norm_num [VSOP_MAX_COORDS]⟩
  · intro f hf
    simp only [AssembleModel] at hf
    rcases List.mem_map.mp hf with ⟨ss, hss, rfl⟩
    obtain ⟨hlen, hmem⟩ := hinv ss (List.mem_reverse.mp hss)
    refine ⟨?_, ?_, ?_⟩
    · show ss.length = ss.reverse.length
      rw [List.length_reverse]
    · show ss.reverse.length < VSOP_MAX_SERIES
      rw [List.length_reverse, VSOP_MAX_SERIES]
      omega
    · intro s hs
      exact hmem s (List.mem_reverse.mp hs)

/-- Witness for C8: a minimal loadable spherical-J2000 file (three
coordinates, one one-term series each) survives the write/read round
trip. -/
theorem VsopLoad_write_read_roundtrip_witness :
    (VsopLoadModel [.header 2 "EARTH   " 0 1, .data 1 0 0,
      .header 2 "EARTH   " 0 1, .data 1 0 0,
      .header 2 "EARTH   " 0 1, .data 1 0 0]).1 = 0 ∧
    VsopReadTrunc (VsopWriteTrunc (VsopLoadModel [.header 2 "EARTH   " 0 1, .data 1 0 0,
      .header 2 "EARTH   " 0 1, .data 1 0 0,
      .header 2 "EARTH   " 0 1, .data 1 0 0]).2) =
      (0, RoundModel (VsopLoadModel [.header 2 "EARTH   " 0 1, .data 1 0 0,
        .header 2 "EARTH   " 0 1, .data 1 0 0,
        .header 2 "EARTH   " 0 1, .data 1 0 0]).2) :=
  ⟨by decide, VsopLoad_write_read_roundtrip
    [.header 2 "EARTH   " 0 1, .data 1 0 0,
     .header 2 "EARTH   " 0 1, .data 1 0 0,
     .header 2 "EARTH   " 0 1, .data 1 0 0] (by decide)⟩

/-- Witness for C7: a formula with an empty series at power 0 followed by
a non-empty active series at power 1 is left completely unchanged by
trim. -/
theorem VsopTrim_spec_witness :
    (VsopTrim ⟨.VSOP_HELIO_SPHER_J2000, .VSOP_EARTH,
        [⟨[⟨[⟨1, 0, 0⟩], 0⟩, ⟨[⟨1, 0, 0⟩], 1⟩], 2⟩]⟩).formula.getD 0 default =
      (vsop_model_t.formula ⟨.VSOP_HELIO_SPHER_J2000, .VSOP_EARTH,
        [⟨[⟨[⟨1, 0, 0⟩], 0⟩, ⟨[⟨1, 0, 0⟩], 1⟩], 2⟩]⟩).getD 0 default :=
  (VsopTrim_spec ⟨.VSOP_HELIO_SPHER_J2000, .VSOP_EARTH,
    [⟨[⟨[⟨1, 0, 0⟩], 0⟩, ⟨[⟨1, 0, 0⟩], 1⟩], 2⟩]⟩ 0).2.2.2.2 (by decide) (by decide)
